import Mathlib

/-!
Verification development for the jobflow fetch-filter-dedupe pipeline
(`services/fetcher/fetch_jobs.py`).

The pipeline code is shallowly embedded: each Python function is translated
into an executable Lean definition over `List Char` / `String` and plain
lists of records.  Python standard-library helpers that the code calls
(`urllib.parse.urlparse`, `parse_qsl`, `urlencode`, `urlunparse`, `str.strip`,
`str.lower`, `json` file handling, `re` search) are modelled at the ASCII /
byte level: Unicode-only behaviours (full Unicode case mapping, Unicode
word/space classes in regexes) are modelled by their ASCII restrictions,
which is the range all claims and the repository's own data exercise.
-/

/-! ## Character helpers (ASCII models of Python `str` methods) -/

/-- ASCII model of Python `str.lower` on a single character. -/
def lowerChar (c : Char) : Char :=
  match c with
  | 'A' => 'a' | 'B' => 'b' | 'C' => 'c' | 'D' => 'd' | 'E' => 'e' | 'F' => 'f'
  | 'G' => 'g' | 'H' => 'h' | 'I' => 'i' | 'J' => 'j' | 'K' => 'k' | 'L' => 'l'
  | 'M' => 'm' | 'N' => 'n' | 'O' => 'o' | 'P' => 'p' | 'Q' => 'q' | 'R' => 'r'
  | 'S' => 's' | 'T' => 't' | 'U' => 'u' | 'V' => 'v' | 'W' => 'w' | 'X' => 'x'
  | 'Y' => 'y' | 'Z' => 'z' | c => c

/-- ASCII model of Python `str.lower`. -/
def pyLower (l : List Char) : List Char := l.map lowerChar

/-- Python regex `\s` (ASCII part). -/
def isSpaceChar (c : Char) : Bool :=
  c == ' ' || c == '\t' || c == '\n' || c == '\r' || c == '\x0b' || c == '\x0c'

/-- Python regex `\w` (ASCII part): letters, digits, underscore. -/
def isWordChar (c : Char) : Bool :=
  ('a' ≤ c ∧ c ≤ 'z') || ('A' ≤ c ∧ c ≤ 'Z') || ('0' ≤ c ∧ c ≤ '9') || c == '_'

/-- Python regex `\d` (ASCII part). -/
def isDigitChar (c : Char) : Bool := '0' ≤ c ∧ c ≤ '9'

def isAsciiAlpha (c : Char) : Bool :=
  ('a' ≤ c ∧ c ≤ 'z') || ('A' ≤ c ∧ c ≤ 'Z')

/-- Strip the given characters from both ends (model of Python `str.strip(chars)`). -/
def stripChars (cs : List Char) (l : List Char) : List Char :=
  ((l.dropWhile (fun c => cs.contains c)).reverse.dropWhile (fun c => cs.contains c)).reverse

/-- Python `str.strip()` with no argument (ASCII whitespace). -/
def pyStrip (l : List Char) : List Char :=
  stripChars [' ', '\t', '\n', '\r', '\x0b', '\x0c'] l

/-- `str.strip` on `String`s, as used by `load_queries`' `add` helper. -/
def pyStripS (s : String) : String := ⟨pyStrip s.data⟩

/-! ## Percent-encoding (models of `urllib.parse.quote_plus` / `unquote`) -/

/-- UTF-8 encoding of one code point, as a list of byte values. -/
def utf8EncodeChar (c : Char) : List Nat :=
  let n := c.toNat
  if n < 0x80 then [n]
  else if n < 0x800 then [0xC0 + n / 64, 0x80 + n % 64]
  else if n < 0x10000 then [0xE0 + n / 4096, 0x80 + (n / 64) % 64, 0x80 + n % 64]
  else [0xF0 + n / 262144, 0x80 + (n / 4096) % 64, 0x80 + (n / 64) % 64, 0x80 + n % 64]

def isContByte (b : Nat) : Bool := 0x80 ≤ b ∧ b ≤ 0xBF

/-- UTF-8 decoding with replacement on errors (model of `errors="replace"`);
fuel-driven so the recursion is structural. -/
def utf8DecodeAux : Nat → List Nat → List Char
  | 0, _ => []
  | _ + 1, [] => []
  | fuel + 1, b :: rest =>
    if b < 0x80 then Char.ofNat b :: utf8DecodeAux fuel rest
    else if 0xC2 ≤ b ∧ b ≤ 0xDF then
      match rest with
      | b2 :: rest2 =>
        if isContByte b2 then Char.ofNat ((b - 0xC0) * 64 + (b2 - 0x80)) :: utf8DecodeAux fuel rest2
        else '�' :: utf8DecodeAux fuel rest
      | [] => ['�']
    else if 0xE0 ≤ b ∧ b ≤ 0xEF then
      match rest with
      | b2 :: b3 :: rest3 =>
        if isContByte b2 ∧ isContByte b3 then
          let v := (b - 0xE0) * 4096 + (b2 - 0x80) * 64 + (b3 - 0x80)
          if v < 0x800 ∨ (0xD800 ≤ v ∧ v ≤ 0xDFFF) then '�' :: utf8DecodeAux fuel rest
          else Char.ofNat v :: utf8DecodeAux fuel rest3
        else '�' :: utf8DecodeAux fuel rest
      | _ => ['�']
    else if 0xF0 ≤ b ∧ b ≤ 0xF4 then
      match rest with
      | b2 :: b3 :: b4 :: rest4 =>
        if isContByte b2 ∧ isContByte b3 ∧ isContByte b4 then
          let v := (b - 0xF0) * 262144 + (b2 - 0x80) * 4096 + (b3 - 0x80) * 64 + (b4 - 0x80)
          if v < 0x10000 ∨ 0x10FFFF < v then '�' :: utf8DecodeAux fuel rest
          else Char.ofNat v :: utf8DecodeAux fuel rest4
        else '�' :: utf8DecodeAux fuel rest
      | _ => ['�']
    else '�' :: utf8DecodeAux fuel rest

def utf8Decode (bs : List Nat) : List Char := utf8DecodeAux bs.length bs

def hexVal (c : Char) : Option Nat :=
  if '0' ≤ c ∧ c ≤ '9' then some (c.toNat - 48)
  else if 'a' ≤ c ∧ c ≤ 'f' then some (c.toNat - 87)
  else if 'A' ≤ c ∧ c ≤ 'F' then some (c.toNat - 55)
  else none

/-- Collect a maximal run of `%XX` triplets into byte values. -/
def pctRun : List Char → List Nat × List Char
  | '%' :: h1 :: h2 :: rest =>
    match hexVal h1, hexVal h2 with
    | some a, some b =>
      let r := pctRun rest
      ((a * 16 + b) :: r.1, r.2)
    | _, _ => ([], '%' :: h1 :: h2 :: rest)
  | l => ([], l)

/-- Percent-decoding (model of `urllib.parse.unquote`): maximal `%XX` byte runs
are UTF-8 decoded; invalid escapes are kept literally. Fuel-driven. -/
def pctDecodeAux : Nat → List Char → List Char
  | 0, _ => []
  | _ + 1, [] => []
  | fuel + 1, c :: rest =>
    if c = '%' then
      match rest with
      | h1 :: h2 :: rest2 =>
        match hexVal h1, hexVal h2 with
        | some a, some b =>
          let r := pctRun rest2
          utf8Decode ((a * 16 + b) :: r.1) ++ pctDecodeAux fuel r.2
        | _, _ => '%' :: pctDecodeAux fuel rest
      | _ => c :: pctDecodeAux fuel rest
    else c :: pctDecodeAux fuel rest

def pctDecode (l : List Char) : List Char := pctDecodeAux l.length l

/-- Model of `urllib.parse.unquote_plus`: `+` to space, then percent-decode. -/
def pyUnquotePlus (l : List Char) : List Char :=
  pctDecode (l.map fun c => if c = '+' then ' ' else c)

/-- Bytes never quoted by `urllib.parse.quote` (`ALWAYS_SAFE`), with the
default `safe=''` of `urlencode`'s `quote_via=quote_plus`. -/
def alwaysSafeByte (b : Nat) : Bool :=
  (65 ≤ b ∧ b ≤ 90) || (97 ≤ b ∧ b ≤ 122) || (48 ≤ b ∧ b ≤ 57) ||
  b == 95 || b == 46 || b == 45 || b == 126

def hexUpper (n : Nat) : Char :=
  (['0','1','2','3','4','5','6','7','8','9','A','B','C','D','E','F']).getD n '0'

/-- Model of `urllib.parse.quote_plus` with `safe=''`. -/
def pyQuotePlus (l : List Char) : List Char :=
  (l.flatMap utf8EncodeChar).flatMap fun b =>
    if alwaysSafeByte b then [Char.ofNat b]
    else if b = 32 then ['+']
    else ['%', hexUpper (b / 16), hexUpper (b % 16)]

/-! ## Query-string handling (`parse_qsl` / `urlencode`) -/

/-- Model of Python `str.split(sep)` for a one-character separator. -/
def splitOnChar (sep : Char) : List Char → List (List Char)
  | [] => [[]]
  | c :: rest =>
    match splitOnChar sep rest with
    | h :: t => if c = sep then [] :: h :: t else (c :: h) :: t
    | [] => [[c]]

/-- Split at the first occurrence of `sep`: `(before, some after)` if present. -/
def breakAt (sep : Char) (l : List Char) : List Char × Option (List Char) :=
  let pre := l.takeWhile fun c => !(c == sep)
  if pre.length = l.length then (l, none) else (pre, some (l.drop (pre.length + 1)))

/-- Model of `urllib.parse.parse_qsl(qs, keep_blank_values=True)`
(separator `&`, `name=value` split at the first `=`). -/
def pyParseQsl (qs : List Char) : List (List Char × List Char) :=
  if qs = [] then []
  else
    (splitOnChar '&' qs).filterMap fun nv =>
      if nv = [] then none
      else
        match breakAt '=' nv with
        | (n, some v) => some (pyUnquotePlus n, pyUnquotePlus v)
        | (n, none) => some (pyUnquotePlus n, [])

/-- Model of `urllib.parse.urlencode` over a pair list (default
`quote_via=quote_plus`, `safe=''`). -/
def pyUrlencode (q : List (List Char × List Char)) : List Char :=
  List.intercalate ['&'] (q.map fun kv => pyQuotePlus kv.1 ++ '=' :: pyQuotePlus kv.2)

/-! ## URL parsing (`urlparse` / `urlunparse`) -/

structure PyUrl where
  scheme : List Char
  netloc : List Char
  path : List Char
  params : List Char
  query : List Char
  fragment : List Char
deriving DecidableEq, Repr

def isC0OrSpace (c : Char) : Bool := c.toNat ≤ 32

/-- `urlsplit` input sanitisation: strip C0 controls/space on the LEFT only
(CPython deliberately keeps trailing spaces), drop tab/CR/LF everywhere. -/
def preClean (l : List Char) : List Char :=
  (l.dropWhile isC0OrSpace).filter fun c => !(c == '\t' || c == '\r' || c == '\n')

def isSchemeChar (c : Char) : Bool :=
  isAsciiAlpha c || isDigitChar c || c == '+' || c == '-' || c == '.'

/-- Scheme detection of `urlsplit`: a leading-alpha run of scheme characters
before the first `:`. Returns `(scheme lowercased, rest)`. -/
def schemeSplit (l : List Char) : List Char × List Char :=
  let pre := l.takeWhile fun c => !(c == ':')
  match pre with
  | [] => ([], l)
  | c :: _ =>
    if pre.length < l.length ∧ isAsciiAlpha c ∧ pre.all isSchemeChar then
      (pyLower pre, l.drop (pre.length + 1))
    else ([], l)

def nonNetDelim (c : Char) : Bool := !(c == '/' || c == '?' || c == '#')

/-- Model of `urllib.parse._splitparams`: split `;params` out of the last
path segment. -/
def splitParams (p : List Char) : List Char × List Char :=
  if ';' ∈ p then
    if '/' ∈ p then
      let tailSeg := (p.reverse.takeWhile fun c => !(c == '/')).reverse
      match breakAt ';' tailSeg with
      | (a, some b) => (p.take (p.length - tailSeg.length) ++ a, b)
      | (_, none) => (p, [])
    else
      match breakAt ';' p with
      | (a, some b) => (a, b)
      | (_, none) => (p, [])
  else (p, [])

/-- Model of `urllib.parse.urlparse` (the bracket-mismatch `ValueError` for
malformed IPv6 netlocs is not modelled; no claim involves bracketed hosts). -/
def pyUrlparse (l0 : List Char) : PyUrl :=
  let l1 := preClean l0
  let sr := schemeSplit l1
  let hasNetloc := sr.2.take 2 = ['/', '/']
  let netloc := if hasNetloc then (sr.2.drop 2).takeWhile nonNetDelim else []
  let r2 := if hasNetloc then (sr.2.drop 2).dropWhile nonNetDelim else sr.2
  let fr := breakAt '#' r2
  let fragment := (fr.2).getD []
  let qr := breakAt '?' fr.1
  let query := (qr.2).getD []
  let pp := splitParams qr.1
  ⟨sr.1, netloc, pp.1, pp.2, query, fragment⟩

/-- CPython's `urllib.parse.uses_netloc` (the scheme list consulted by
`urlunsplit`), as character lists. -/
def usesNetloc : List (List Char) :=
  ["", "ftp", "http", "gopher", "nntp", "telnet", "imap", "wais", "file", "mms",
   "https", "shttp", "snews", "prospero", "rtsp", "rtsps", "rtspu", "rsync",
   "svn", "svn+ssh", "sftp", "nfs", "git", "git+ssh", "ws", "wss"].map String.data

/-- The condition under which `urlunsplit` re-adds the `//netloc` part
(CPython 3.11: a netloc is present, or the scheme is in `uses_netloc` and the
path does not already start with `//`). -/
def netCond (scheme netloc url : List Char) : Prop :=
  netloc ≠ [] ∨ (scheme ≠ [] ∧ scheme ∈ usesNetloc ∧ url.take 2 ≠ ['/', '/'])

instance (scheme netloc url : List Char) : Decidable (netCond scheme netloc url) := by
  unfold netCond; infer_instance

/-- `urlunsplit`'s `if url and url[:1] != '/': url = '/' + url`. -/
def slashAdj (url : List Char) : List Char :=
  if url ≠ [] ∧ url.take 1 ≠ ['/'] then '/' :: url else url

/-- Model of `urllib.parse.urlunsplit` (CPython 3.11). -/
def pyUrlunsplit (scheme netloc url query fragment : List Char) : List Char :=
  let u1 :=
    if netCond scheme netloc url then ('/' :: '/' :: netloc) ++ slashAdj url
    else url
  let u2 := if scheme ≠ [] then scheme ++ ':' :: u1 else u1
  let u3 := if query ≠ [] then u2 ++ '?' :: query else u2
  if fragment ≠ [] then u3 ++ '#' :: fragment else u3

/-- Model of `urllib.parse.urlunparse`. -/
def pyUrlunparse (p : PyUrl) : List Char :=
  pyUrlunsplit p.scheme p.netloc
    (if p.params ≠ [] then p.path ++ ';' :: p.params else p.path) p.query p.fragment

/-! ## `normalize_url` (fetch_jobs.py lines 69-77) -/

/-- The tracking-parameter predicate of `normalize_url`'s comprehension:
keep `(k, v)` unless `k.lower()` starts with `utm_` or is `fbclid`/`gclid`. -/
def keepParam (kv : List Char × List Char) : Bool :=
  !(List.isPrefixOf "utm_".data (pyLower kv.1)) &&
  !(pyLower kv.1 == "fbclid".data) && !(pyLower kv.1 == "gclid".data)

/-- Strip exactly one trailing `/` (the final step of `normalize_url`). -/
def stripSlashL (l : List Char) : List Char :=
  if l.getLast? = some '/' then l.dropLast else l

/-- `normalize_url` from fetch_jobs.py: parse, drop tracking params, lowercase
the netloc, drop the fragment, reassemble, strip one trailing slash.
(The `isinstance` guard needs no model: the Lean input is always a string.) -/
def normalize_url (u : String) : String :=
  if u = "" then ""
  else
    let p := pyUrlparse u.data
    let q := (pyParseQsl p.query).filter keepParam
    let p2 : PyUrl := { p with netloc := pyLower p.netloc, query := pyUrlencode q, fragment := [] }
    let out := pyUrlunparse p2
    ⟨stripSlashL out⟩

/-- The post-parse core of `normalize_url`, as a function of the parse result. -/
def normCore (p : PyUrl) : List Char :=
  let q := (pyParseQsl p.query).filter keepParam
  let p2 : PyUrl := { p with netloc := pyLower p.netloc, query := pyUrlencode q, fragment := [] }
  stripSlashL (pyUrlunparse p2)

/-! ## Regex machinery (model of `re` search for the three patterns)

A pattern is a nondeterministic consumer of a *matching state*: the last
consumed character (for `\b` boundaries) plus the remaining text.  `search`
succeeds if the pattern matches, between boundaries, at any position.
Case-insensitivity (`(?i)`) is modelled by lowercasing the text first. -/

/-- Matching state: previously consumed character (none at start of text)
and remaining text. -/
abbrev PState := Option Char × List Char

def isWordOpt : Option Char → Bool
  | none => false
  | some c => isWordChar c

/-- `\b`: a word boundary lies between the previous character and the head
of the rest. -/
def atBoundary (st : PState) : Bool :=
  isWordOpt st.1 != (match st.2 with | [] => false | c :: _ => isWordChar c)

/-- Literal token. -/
def pLit (w : String) (st : PState) : List PState :=
  if w.data ≠ [] ∧ w.data.isPrefixOf st.2 then [(w.data.getLast?, st.2.drop w.data.length)]
  else []

def pSeq (f g : PState → List PState) (st : PState) : List PState :=
  (f st).flatMap g

def pAlt (f g : PState → List PState) (st : PState) : List PState :=
  f st ++ g st

def pAlts (fs : List (PState → List PState)) (st : PState) : List PState :=
  fs.flatMap fun f => f st

/-- `(...)?` -/
def pOpt (f : PState → List PState) (st : PState) : List PState :=
  st :: f st

/-- All stop points of a greedy character-class star, consuming with `p`. -/
def starAux (p : Char → Bool) : Option Char → List Char → List PState
  | pr, [] => [(pr, [])]
  | pr, c :: r => (pr, c :: r) :: (if p c then starAux p (some c) r else [])

/-- `\s*` -/
def pWsStar (st : PState) : List PState := starAux isSpaceChar st.1 st.2

/-- `\s+` -/
def pWsPlus (st : PState) : List PState :=
  match st.2 with
  | c :: r => if isSpaceChar c then starAux isSpaceChar (some c) r else []
  | [] => []

/-- `\d` -/
def pDigit (st : PState) : List PState :=
  match st.2 with
  | c :: r => if isDigitChar c then [(some c, r)] else []
  | [] => []

/-- `\d+` -/
def pDigitsPlus (st : PState) : List PState :=
  match st.2 with
  | c :: r => if isDigitChar c then starAux isDigitChar (some c) r else []
  | [] => []

/-- A single character from a set. -/
def pCharIn (cs : List Char) (st : PState) : List PState :=
  match st.2 with
  | c :: r => if cs.contains c then [(some c, r)] else []
  | [] => []

/-- `re.search` of `\b pat \b` over the whole text: try every start state. -/
def statesOf : Option Char → List Char → List PState
  | pr, [] => [(pr, [])]
  | pr, c :: r => (pr, c :: r) :: statesOf (some c) r

def searchB (pat : PState → List PState) (text : List Char) : Bool :=
  (statesOf none text).any fun st => atBoundary st && (pat st).any atBoundary

/-! ### `TITLE_EXCLUDE_PAT` (fetch_jobs.py lines 50-54)
`(?i)\b(senior|sr\.?|lead|principal|architect|manager|head|director)\b` -/

def titleExcludePat : PState → List PState :=
  pAlts [pLit "senior", pSeq (pLit "sr") (pOpt (pLit ".")), pLit "lead",
         pLit "principal", pLit "architect", pLit "manager", pLit "head",
         pLit "director"]

/-- `bool(TITLE_EXCLUDE_PAT.search(s))`. -/
def titleExcludeSearch (s : String) : Bool :=
  searchB titleExcludePat (pyLower s.data)

/-! ### `EXCLUDE_EXP_YEARS_RE` (fetch_jobs.py lines 56-58)
`(?i)\b(?:[5-9]|1\d|2\d|3\d)\s*(?:\+|-\s*\d+)?\s*(?:years?|yrs?)\s*(?:of\s+)?(?:experience|exp)\b` -/

def expYearsPat : PState → List PState :=
  pSeq (pAlt (pCharIn ['5','6','7','8','9']) (pSeq (pCharIn ['1','2','3']) pDigit))
    (pSeq pWsStar
      (pSeq (pOpt (pAlt (pLit "+") (pSeq (pLit "-") (pSeq pWsStar pDigitsPlus))))
        (pSeq pWsStar
          (pSeq (pAlts [pLit "years", pLit "year", pLit "yrs", pLit "yr"])
            (pSeq pWsStar
              (pSeq (pOpt (pSeq (pLit "of") pWsPlus))
                (pAlt (pLit "experience") (pLit "exp"))))))))

/-- `bool(EXCLUDE_EXP_YEARS_RE.search(s))`. -/
def expYearsSearch (s : String) : Bool :=
  searchB expYearsPat (pyLower s.data)

/-! ### `EXCLUDE_RIGHTS_RE` (fetch_jobs.py lines 59-67) -/

def rightsPat : PState → List PState :=
  pAlts
    [pSeq (pLit "permanent") (pSeq pWsPlus (pLit "resident")),
     pSeq (pLit "permanent") (pSeq pWsPlus (pLit "residency")),
     pSeq (pLit "pr") (pSeq pWsStar (pOpt (pAlt (pLit "only") (pLit "required")))),
     pLit "citizen", pLit "citizenship",
     pSeq (pLit "australian") (pSeq pWsPlus (pLit "citizen")),
     pSeq (pLit "au") (pSeq pWsPlus (pLit "citizen")),
     pSeq (pLit "nz") (pSeq pWsPlus (pLit "citizen")),
     pSeq (pLit "baseline") (pSeq pWsPlus (pLit "clearance")),
     pLit "nv1", pLit "nv2",
     pSeq (pLit "security") (pSeq pWsPlus (pLit "clearance")),
     pSeq (pLit "must") (pSeq pWsPlus (pSeq (pLit "have")
       (pSeq pWsPlus (pSeq (pOpt (pSeq (pLit "full") pWsPlus))
         (pSeq (pLit "work") (pSeq (pOpt (pLit "ing")) (pSeq pWsPlus (pLit "rights")))))))),
     pSeq (pLit "sponsorship") (pSeq pWsPlus (pSeq (pLit "not") (pSeq pWsPlus (pLit "available")))),
     pSeq (pLit "no") (pSeq pWsPlus (pLit "sponsorship"))]

/-- `bool(EXCLUDE_RIGHTS_RE.search(s))`. -/
def rightsSearch (s : String) : Bool :=
  searchB rightsPat (pyLower s.data)

/-! ## MD5 (model of `hashlib.md5(u.encode()).hexdigest()`), used by
`keep_required` to synthesise a missing record identifier. -/

def md5K : List Nat :=
  [3614090360, 3905402710, 606105819, 3250441966, 4118548399, 1200080426, 2821735955, 4249261313,
   1770035416, 2336552879, 4294925233, 2304563134, 1804603682, 4254626195, 2792965006, 1236535329,
   4129170786, 3225465664, 643717713, 3921069994, 3593408605, 38016083, 3634488961, 3889429448,
   568446438, 3275163606, 4107603335, 1163531501, 2850285829, 4243563512, 1735328473, 2368359562,
   4294588738, 2272392833, 1839030562, 4259657740, 2763975236, 1272893353, 4139469664, 3200236656,
   681279174, 3936430074, 3572445317, 76029189, 3654602809, 3873151461, 530742520, 3299628645,
   4096336452, 1126891415, 2878612391, 4237533241, 1700485571, 2399980690, 4293915773, 2240044497,
   1873313359, 4264355552, 2734768916, 1309151649, 4149444226, 3174756917, 718787259, 3951481745]

def md5S : List Nat :=
  [7, 12, 17, 22, 7, 12, 17, 22, 7, 12, 17, 22, 7, 12, 17, 22,
   5, 9, 14, 20, 5, 9, 14, 20, 5, 9, 14, 20, 5, 9, 14, 20,
   4, 11, 16, 23, 4, 11, 16, 23, 4, 11, 16, 23, 4, 11, 16, 23,
   6, 10, 15, 21, 6, 10, 15, 21, 6, 10, 15, 21, 6, 10, 15, 21]

def rotl32 (x s : Nat) : Nat :=
  (((x <<< s) % 4294967296) + (x >>> (32 - s))) % 4294967296

def md5FG (i b c d : Nat) : Nat × Nat :=
  if i < 16 then ((b &&& c) ||| ((4294967295 ^^^ b) &&& d), i)
  else if i < 32 then ((d &&& b) ||| ((4294967295 ^^^ d) &&& c), (5 * i + 1) % 16)
  else if i < 48 then (b ^^^ c ^^^ d, (3 * i + 5) % 16)
  else (c ^^^ (b ||| (4294967295 ^^^ d)), (7 * i) % 16)

def md5Word (chunk : List Nat) (g : Nat) : Nat :=
  chunk.getD (4 * g) 0 + 256 * chunk.getD (4 * g + 1) 0 +
  65536 * chunk.getD (4 * g + 2) 0 + 16777216 * chunk.getD (4 * g + 3) 0

def md5Chunk (st : Nat × Nat × Nat × Nat) (chunk : List Nat) : Nat × Nat × Nat × Nat :=
  let r := (List.range 64).foldl
    (fun s i =>
      let (a, b, c, d) := s
      let fg := md5FG i b c d
      let f := (fg.1 + a + md5K.getD i 0 + md5Word chunk fg.2) % 4294967296
      (d, (b + rotl32 f (md5S.getD i 0)) % 4294967296, b, c))
    st
  let (a0, b0, c0, d0) := st
  let (a, b, c, d) := r
  ((a0 + a) % 4294967296, (b0 + b) % 4294967296, (c0 + c) % 4294967296, (d0 + d) % 4294967296)

def md5Pad (msg : List Nat) : List Nat :=
  let len := msg.length
  let padLen := (56 - ((len + 1) % 64) + 64) % 64
  let bits := (len * 8) % 18446744073709551616
  msg ++ 128 :: List.replicate padLen 0 ++
    (List.range 8).map fun i => (bits >>> (8 * i)) % 256

def hexDigitLower (n : Nat) : Char :=
  if n < 10 then Char.ofNat (48 + n) else Char.ofNat (87 + n)

def hexPairLower (b : Nat) : List Char :=
  [hexDigitLower (b / 16), hexDigitLower (b % 16)]

def md5hexBytes (msg : List Nat) : List Char :=
  let padded := md5Pad msg
  let st := (List.range (padded.length / 64)).foldl
    (fun st i => md5Chunk st ((padded.drop (64 * i)).take 64))
    (1732584193, 4023233417, 2562383102, 271733878)
  let (a, b, c, d) := st
  ([a, b, c, d].flatMap fun w => (List.range 4).map fun i => (w >>> (8 * i)) % 256).flatMap
    hexPairLower

/-- `hashlib.md5(s.encode()).hexdigest()`. -/
def md5hex (s : String) : String :=
  ⟨md5hexBytes (s.data.flatMap utf8EncodeChar)⟩

/-! ## Record model

A scraped dataframe is modelled as a list of records; a missing/NaN cell is
`Option.none`.  The column-level operations of `keep_required` (renaming
`employment_type`/`seniority_level`, synthesising `id`) are modelled per
record; pandas' dropping of all-NA columns in `fetch_site` has no record-level
effect and is not modelled separately. -/

structure RawRec where
  id : Option String
  site : Option String
  job_url : Option String
  title : Option String
  company : Option String
  location : Option String
  job_type : Option String
  job_level : Option String
  description : Option String
  employment_type : Option String
  seniority_level : Option String
  source_query : Option String
deriving DecidableEq, Repr

/-- A record after `keep_required`: exactly the `REQUIRED_BASE` columns,
all filled with strings (`fillna("")`). -/
structure NormRec where
  id : String
  site : String
  job_url : String
  title : String
  company : String
  location : String
  job_type : String
  job_level : String
  description : String
deriving DecidableEq, Repr

/-- A record with its `job_url_norm` column added (fetch_all lines 316-319). -/
structure KRec where
  r : NormRec
  job_url_norm : String
deriving DecidableEq, Repr

/-! ## `fetch_site` (fetch_jobs.py lines 132-160)

The external `scrape_jobs` backend is a parameter returning either a record
batch or a raised exception; site/location/hours/results options are part of
the closure. -/

def fetch_site (scrape : String → Except String (List RawRec)) (queries : List String) :
    List RawRec :=
  queries.flatMap fun term =>
    match scrape term with
    | .error _ => []
    | .ok df => if df.isEmpty then [] else df.map fun r => { r with source_query := some term }

/-! ## Filters (fetch_jobs.py lines 162-211) -/

/-- Substring test (Python `in` on strings). -/
def containsSub (n : List Char) : List Char → Bool
  | [] => n.isEmpty
  | c :: r => n.isPrefixOf (c :: r) || containsSub n r

/-- `_build_query_phrases`: lowercase phrases with outer quotes stripped. -/
def build_query_phrases (queries : List String) : List (List Char) :=
  queries.filterMap fun q =>
    if q = "" then none
    else
      let q2 := stripChars ['\''] (stripChars ['"'] (pyStrip q.data))
      if q2 = [] then none else some (pyLower q2)

/-- `filter_title`: drop titles matching `TITLE_EXCLUDE_PAT`
(`fillna("")` first); optionally keep only titles containing a query phrase.
In pandas, the inclusion pass computes `out["title"].str.lower()` and then
`any(p in s ...)` over it, which raises a `TypeError` when a surviving title
is NaN — modelled by the `Except` error case. -/
def filter_title (df : List RawRec) (queries : List String) (enforce_include : Bool) :
    Except String (List RawRec) :=
  if df.isEmpty then .ok df
  else
    let out := df.filter fun r => !titleExcludeSearch ((r.title).getD "")
    if enforce_include then
      let phrases := build_query_phrases queries
      if phrases.isEmpty then .ok out
      else if out.any fun r => r.title.isNone then .error "TypeError"
      else .ok (out.filter fun r =>
        phrases.any fun p => containsSub p (pyLower ((r.title).getD "").data))
    else .ok out

/-- `keep_required` on one record: alternate-name fallback, id synthesis by
URL hash, `fillna("")` on the `REQUIRED_BASE` columns. -/
def keep_required (r : RawRec) : NormRec :=
  { id :=
      match r.id with
      | some i => i
      | none =>
        let u := (r.job_url).getD ""
        if u = "" then "" else md5hex u
    site := (r.site).getD ""
    job_url := (r.job_url).getD ""
    title := (r.title).getD ""
    company := (r.company).getD ""
    location := (r.location).getD ""
    job_type := ((r.job_type).orElse fun _ => r.employment_type).getD ""
    job_level := ((r.job_level).orElse fun _ => r.seniority_level).getD ""
    description := (r.description).getD "" }

/-- `filter_description`: drop records whose description matches either
exclusion regex.  (The `"description" not in df.columns` early return is
vacuous at its call site: `keep_required` has already guaranteed the column.) -/
def filter_description (df : List KRec) : List KRec :=
  df.filter fun kr =>
    !(expYearsSearch kr.r.description || rightsSearch kr.r.description)

/-- `df.drop_duplicates(subset=["job_url_norm","id"])`: keep the first
occurrence of each key pair. -/
def dedupAux (acc : List (String × String)) : List KRec → List KRec
  | [] => []
  | kr :: rest =>
    if (kr.job_url_norm, kr.r.id) ∈ acc then dedupAux acc rest
    else kr :: dedupAux ((kr.job_url_norm, kr.r.id) :: acc) rest

def drop_duplicates (df : List KRec) : List KRec := dedupAux [] df

/-! ## Seen store (fetch_jobs.py lines 213-224)

The seen file is modelled by its parsed state: absent, unreadable/invalid
JSON, or a JSON array of strings (other JSON payloads also land in
`invalid`, matching the caught-exception path).  Python `set`s are modelled
as lists used up to membership. -/

inductive FileState where
  | absent : FileState
  | invalid : FileState
  | json : List String → FileState
deriving DecidableEq, Repr

/-- `load_seen`: missing or unreadable file gives the empty set. -/
def load_seen : FileState → List String
  | .absent => []
  | .invalid => []
  | .json xs => xs.dedup

/-- `os.path.dirname` (posix). -/
def pyDirname (p : String) : String :=
  let l := p.data
  let afterLast := (l.reverse.takeWhile fun c => !(c == '/')).reverse
  let head := l.take (l.length - afterLast.length)
  if head ≠ [] ∧ ¬(head.all fun c => c == '/') then
    ⟨(head.reverse.dropWhile fun c => c == '/').reverse⟩
  else ⟨head⟩

/-- `sorted(seen)` for a Python set: the unique sorted list of members. -/
def pySortedSet (seen : List String) : List String :=
  (seen.dedup).insertionSort (· ≤ ·)

/-- `save_seen`: `os.makedirs(os.path.dirname(path), exist_ok=True)` raises
`FileNotFoundError` when the dirname is empty; otherwise the file becomes the
sorted JSON array of the set's members.  (Other environment failures of
`makedirs`/`open` are not modelled.) -/
def save_seen (path : String) (seen : List String) : Except String FileState :=
  if pyDirname path = "" then .error "FileNotFoundError"
  else .ok (.json (pySortedSet seen))

/-! ## `load_queries` (fetch_jobs.py lines 79-130) -/

def DEFAULT_QUERIES : List String :=
  ["\"junior software engineer\"", "\"software engineer\"", "\"software developer\"",
   "\"java developer\"", "\"devops engineer\"", "\"devops developer\"",
   "\"it support\"", "\"full stack developer\"", "\"full stack engineer\""]

/-- The `add` helper of `load_queries`: strip, skip empties and duplicates,
preserve order. -/
def addQueries (res : List String) (xs : List String) : List String :=
  xs.foldl (fun r x =>
    let x2 := pyStripS x
    if x2 ≠ "" ∧ x2 ∉ r then r ++ [x2] else r) res

def jsonSkipWs (l : List Char) : List Char :=
  l.dropWhile fun c => c == ' ' || c == '\t' || c == '\n' || c == '\r'

/-- JSON string body (after the opening quote); fuel-driven. -/
def jsonStringAux : Nat → List Char → Option (List Char × List Char)
  | 0, _ => none
  | _ + 1, [] => none
  | fuel + 1, c :: r =>
    if c = '"' then some ([], r)
    else if c = '\\' then
      match r with
      | e :: r2 =>
        let cont := fun (d : Char) (rest : List Char) =>
          (jsonStringAux fuel rest).map fun p => (d :: p.1, p.2)
        match e with
        | '"' => cont '"' r2
        | '\\' => cont '\\' r2
        | '/' => cont '/' r2
        | 'b' => cont '\x08' r2
        | 'f' => cont '\x0c' r2
        | 'n' => cont '\n' r2
        | 'r' => cont '\r' r2
        | 't' => cont '\t' r2
        | 'u' =>
          match r2 with
          | h1 :: h2 :: h3 :: h4 :: r3 =>
            match hexVal h1, hexVal h2, hexVal h3, hexVal h4 with
            | some a, some b, some c', some d =>
              cont (Char.ofNat (a * 4096 + b * 256 + c' * 16 + d)) r3
            | _, _, _, _ => none
          | _ => none
        | _ => none
      | [] => none
    else if c.toNat < 32 then none
    else (jsonStringAux fuel r).map fun p => (c :: p.1, p.2)

/-- Does an integer literal continue into a float (`.`, `e`, `E` next)? -/
def jsonNumCont (l : List Char) : Bool :=
  match l with
  | c :: _ => c = '.' || c = 'e' || c = 'E'
  | [] => false

/-- One scalar JSON item of the queries array, returned already coerced by
Python `str()` as `load_queries` does (`add([str(i) for i in data])`):
strings as themselves, `true`/`false`/`null` as `"True"`/`"False"`/`"None"`,
integers as their decimal form (`-0` is `0`; json's grammar bans leading
zeros and `+`; more than 4300 digits raises `ValueError` in `int()`, hitting
the caught-exception path, hence `none`).  A float item (digits continuing
with `.`/`e`/`E`) or a nested container is outside the model and mapped to
`none` — such a file contributes nothing here, whereas Python would merge
the `str()` forms (shortest-round-trip float printing and container `repr`
are not embedded). -/
def jsonScalar : List Char → Option (String × List Char)
  | [] => none
  | c :: r =>
    if c = '"' then
      (jsonStringAux (r.length + 1) r).map fun p => (⟨p.1⟩, p.2)
    else if c = 't' then
      match r with
      | 'r' :: 'u' :: 'e' :: r2 => some ("True", r2)
      | _ => none
    else if c = 'f' then
      match r with
      | 'a' :: 'l' :: 's' :: 'e' :: r2 => some ("False", r2)
      | _ => none
    else if c = 'n' then
      match r with
      | 'u' :: 'l' :: 'l' :: r2 => some ("None", r2)
      | _ => none
    else
      let (neg, r1) := if c = '-' then (true, r) else (false, c :: r)
      match r1 with
      | '0' :: r2 => if jsonNumCont r2 then none else some ("0", r2)
      | d :: r2 =>
        if isDigitChar d ∧ d ≠ '0' then
          let ds := d :: r2.takeWhile isDigitChar
          let r3 := r2.dropWhile isDigitChar
          if jsonNumCont r3 then none
          else if ds.length > 4300 then none
          else some (⟨if neg then '-' :: ds else ds⟩, r3)
        else none
      | [] => none

/-- The comma-separated items of a non-empty JSON array, after the opening
`[`; fuel-driven (each step consumes the item and its separator, so the
remaining length strictly drops). -/
def jsonItemsAux : Nat → List Char → Option (List String × List Char)
  | 0, _ => none
  | fuel + 1, l =>
    match jsonScalar (jsonSkipWs l) with
    | some (s, rest) =>
      match jsonSkipWs rest with
      | ',' :: r2 => (jsonItemsAux fuel r2).map fun p => (s :: p.1, p.2)
      | ']' :: r2 => some ([s], r2)
      | _ => none
    | none => none

/-- `json.load` of the queries file followed by the `str(i)` coercion of each
item, for a JSON array of scalar items.  `none` covers every path on which
`load_queries` adds nothing from the file: a parse error or a non-list top
level (both reach the caught-exception / non-list branch), and the
out-of-model items noted at `jsonScalar`. -/
def jsonLoadList (l : List Char) : Option (List String) :=
  match jsonSkipWs l with
  | '[' :: r =>
    match jsonSkipWs r with
    | ']' :: rest => if jsonSkipWs rest = [] then some [] else none
    | _ =>
      match jsonItemsAux (r.length + 1) r with
      | some (xs, rest) => if jsonSkipWs rest = [] then some xs else none
      | none => none
  | _ => none

/-- Line-based queries file: split lines, keep those whose strip is non-empty
and does not start with `#` (`add` strips afterwards). -/
def textFileQueryLines (content : String) : List String :=
  ((splitOnChar '\n' content.data).filter fun ln =>
    pyStrip ln ≠ [] ∧ (pyStrip ln).head? ≠ some '#').map fun ln => ⟨ln⟩

/-- `ENV QUERIES` splitting: by `|` then by `,`. -/
def splitEnvQueries (s : String) : List String :=
  (splitOnChar '|' s.data).flatMap fun chunk =>
    (splitOnChar ',' chunk).map fun l => ⟨l⟩

/-- `load_queries`.  The filesystem is a parameter: `fs path` is the file's
raw content when `os.path.isfile(path)` holds.  `cli_file = some ""` and
`cli_file = none` both behave like Python's falsy check.  A `.json` suffix
(case-insensitive) selects JSON parsing, otherwise line parsing. -/
def load_queries (cli_queries : List String) (cli_file : Option String)
    (env_queries : String) (env_queries_file : String)
    (fs : String → Option String) : List String :=
  let r1 := if cli_queries ≠ [] then addQueries [] cli_queries else []
  let fp0 := cli_file.getD ""
  let file_path := if fp0 = "" then env_queries_file else fp0
  let env_queries_raw := if cli_queries ≠ [] then "" else env_queries
  let r2 :=
    if file_path ≠ "" then
      match fs file_path with
      | none => r1
      | some content =>
        if List.isSuffixOf ".json".data (pyLower file_path.data) then
          match jsonLoadList content.data with
          | some xs => addQueries r1 xs
          | none => r1
        else addQueries r1 (textFileQueryLines content)
    else r1
  let r3 :=
    if env_queries_raw ≠ "" ∧ cli_queries = [] then addQueries r2 (splitEnvQueries env_queries_raw)
    else r2
  if r3 = [] then addQueries r3 DEFAULT_QUERIES else r3

/-! ## `fetch_all` (fetch_jobs.py lines 273-359) -/

/-- One entry of the `items` payload (the seven projected columns). -/
structure Item where
  job_url : String
  title : String
  company : String
  location : String
  job_type : String
  job_level : String
  description : String
deriving DecidableEq, Repr

/-- The `meta` diagnostics mapping of a non-empty run. -/
structure Meta where
  fetched_raw : Nat
  after_title_filter : Nat
  after_row_dedupe : Nat
  after_description_filter : Nat
  new_after_seen : Nat
  include_from_queries : Bool
  description_filter_applied : Bool
deriving DecidableEq, Repr

/-- The response dictionary of `fetch_all`.  `meta`/`queries` are `Option`s:
`none` models the key being absent from the returned dict. -/
structure Response where
  new_count : Nat
  sheet_result : Option String
  items : List Item
  meta : Option Meta
  queries : Option (List String)
deriving DecidableEq, Repr

/-- `_empty_response(queries, return_queries)`: note it carries NO `meta` key. -/
def empty_response (queries : List String) (return_queries : Bool) : Response :=
  { new_count := 0, sheet_result := none, items := [],
    meta := none, queries := if return_queries then some queries else none }

/-- Configuration of one run, with the `None`-defaulting of
`include_from_queries` / `filter_description_flag` / env defaults already
resolved by the caller (as `fetch_all` lines 292-296 do).  `reset_seen` is
not modelled: the `seen0` argument of `fetchAllRun` is the seen set as loaded
at the start of the run, after any reset. -/
structure RunConfig where
  update_sheet : Bool
  return_queries : Bool
  enforce_include : Bool
  apply_desc_filter : Bool
  queries : List String
deriving DecidableEq, Repr

/-- Observable effects on shared state, in program order. -/
inductive Ev where
  | saveSeen : Ev
  | sinkAppend : Ev
deriving DecidableEq, Repr

instance {α β : Type} [DecidableEq α] [DecidableEq β] : DecidableEq (Except α β) :=
  fun a b =>
    match a, b with
    | .ok x, .ok y => if h : x = y then .isTrue (by rw [h]) else .isFalse (by simp [h])
    | .error x, .error y => if h : x = y then .isTrue (by rw [h]) else .isFalse (by simp [h])
    | .ok _, .error _ => .isFalse (by simp)
    | .error _, .ok _ => .isFalse (by simp)

/-- Outcome of a run: the persisted seen set after the run (the `save_seen`
write; unchanged when the run ended before it), the returned response or the
propagated exception, and the ordered effect trace. -/
structure RunOutcome where
  seenAfter : List String
  result : Except String Response
  events : List Ev
deriving DecidableEq, Repr

/-- `seen.update(new_keys)` on the Python set, modelled on lists up to
membership (append the keys not already present, first occurrence kept). -/
def pySetUpdate (s : List String) (ks : List String) : List String :=
  ks.foldl (fun acc k => if k ∈ acc then acc else acc ++ [k]) s

/-- The filter/dedupe middle of the pipeline (fetch_all lines 315-324):
`keep_required`, the `job_url_norm` column, `drop_duplicates`, and the
optional description filter. -/
def pipePrepared (apply_desc_filter : Bool) (dft : List RawRec) : List KRec :=
  let dfd := drop_duplicates ((dft.map keep_required).map fun r =>
    ⟨r, normalize_url r.job_url⟩)
  if apply_desc_filter then filter_description dfd else dfd

/-- Projection to the `items` payload (fetch_all line 342). -/
def mkItem (kr : KRec) : Item :=
  ⟨kr.r.job_url, kr.r.title, kr.r.company, kr.r.location, kr.r.job_type,
   kr.r.job_level, kr.r.description⟩

/-- The full `meta` dict (fetch_all lines 347-355). -/
def mkMeta (cfg : RunConfig) (before after_title after_dedupe after_desc after_seen : Nat) :
    Meta :=
  { fetched_raw := before
    after_title_filter := after_title
    after_row_dedupe := after_dedupe
    after_description_filter := if cfg.apply_desc_filter then after_desc else after_dedupe
    new_after_seen := after_seen
    include_from_queries := cfg.enforce_include
    description_filter_applied := cfg.apply_desc_filter }

/-- `fetch_all`.  External collaborators are parameters: `scrape` is the
per-term retrieval call, `sink` is `append_sheet` (whose own sheet-side
dedupe is behind the interface; a raised sink exception propagates out of
`fetch_all`, which does not catch it), `seen0` is the seen set loaded from
`SEEN_PATH` at run start.  The `save_seen` write is the `seenAfter` field
(the run's `SEEN_PATH` dirname is taken as sane, as with the shipped
default). -/
def fetchAllRun (cfg : RunConfig) (scrape : String → Except String (List RawRec))
    (sink : List KRec → Except String String) (seen0 : List String) : RunOutcome :=
  let lk := fetch_site scrape cfg.queries
  if lk.isEmpty then
    { seenAfter := seen0, result := .ok (empty_response cfg.queries cfg.return_queries),
      events := [] }
  else
    match filter_title lk cfg.queries cfg.enforce_include with
    | .error e => { seenAfter := seen0, result := .error e, events := [] }
    | .ok dft =>
      let dff := pipePrepared cfg.apply_desc_filter dft
      let dfNew := dff.filter fun kr => !decide (kr.job_url_norm ∈ seen0)
      if dfNew.isEmpty then
        { seenAfter := seen0, result := .ok (empty_response cfg.queries cfg.return_queries),
          events := [] }
      else
        let new_keys := (dfNew.map fun kr => kr.job_url_norm).filter fun k => k ≠ ""
        let seen1 := pySetUpdate seen0 new_keys
        match (if cfg.update_sheet then (sink dfNew).map some else .ok none) with
        | .error e =>
          { seenAfter := seen1, result := .error e, events := [.saveSeen, .sinkAppend] }
        | .ok sres =>
          { seenAfter := seen1
            result := .ok
              { new_count := dfNew.length
                sheet_result := sres
                items := dfNew.map mkItem
                meta := some (mkMeta cfg lk.length dft.length
                  (drop_duplicates ((dft.map keep_required).map fun r =>
                    ⟨r, normalize_url r.job_url⟩)).length dff.length dfNew.length)
                queries := if cfg.return_queries then some cfg.queries else none }
            events := [.saveSeen] ++ if cfg.update_sheet then [.sinkAppend] else [] }

/-! # Helper lemmas -/

theorem dedupAux_sublist (l : List KRec) : ∀ acc, (dedupAux acc l).Sublist l := by
  induction l with
  | nil => intro acc; simp [dedupAux]
  | cons kr rest ih =>
    intro acc
    unfold dedupAux
    split
    · exact (ih acc).trans (List.sublist_cons_self kr rest)
    · exact (ih _).cons₂ kr

theorem drop_duplicates_sublist (l : List KRec) : (drop_duplicates l).Sublist l :=
  dedupAux_sublist l []

theorem filter_description_sublist (l : List KRec) : (filter_description l).Sublist l :=
  List.filter_sublist l

theorem pipePrepared_sublist (b : Bool) (dft : List RawRec) :
    (pipePrepared b dft).Sublist
      (drop_duplicates ((dft.map keep_required).map fun r => ⟨r, normalize_url r.job_url⟩)) := by
  unfold pipePrepared
  split
  · exact filter_description_sublist _
  · exact List.Sublist.refl _

/-- Every record in the prepared batch carries `normalize_url` of its own URL
as its dedupe key. -/
theorem pipePrepared_key (b : Bool) (dft : List RawRec) (kr : KRec)
    (h : kr ∈ pipePrepared b dft) : kr.job_url_norm = normalize_url kr.r.job_url := by
  have h2 := (pipePrepared_sublist b dft).subset h
  have h3 := (drop_duplicates_sublist _).subset h2
  obtain ⟨r, _, rfl⟩ := List.mem_map.mp h3
  rfl

theorem mem_pySetUpdate (ks : List String) :
    ∀ (s : List String) (k : String), k ∈ pySetUpdate s ks ↔ k ∈ s ∨ k ∈ ks := by
  induction ks with
  | nil => intro s k; simp [pySetUpdate]
  | cons k0 ks ih =>
    intro s k
    have step : pySetUpdate s (k0 :: ks) = pySetUpdate (if k0 ∈ s then s else s ++ [k0]) ks := by
      simp [pySetUpdate, List.foldl_cons]
    rw [step, ih]
    by_cases h : k0 ∈ s
    · rw [if_pos h]
      constructor
      · rintro (hs | hk)
        · exact Or.inl hs
        · exact Or.inr (List.mem_cons_of_mem _ hk)
      · rintro (hs | hk)
        · exact Or.inl hs
        · rcases List.mem_cons.mp hk with rfl | hk2
          · exact Or.inl h
          · exact Or.inr hk2
    · rw [if_neg h]
      simp only [List.mem_append, List.mem_singleton, List.mem_cons]
      tauto

/-! # C5: fetch_site skips failing phrases -/

/-- C5: `fetch_site` skips any phrase whose retrieval call raises and goes on
with the remaining phrases, never raising itself.  If phrase A fails and
phrase B returns records `rs`, the result is exactly `rs` tagged with source
phrase B; a failing head phrase contributes nothing; if every phrase fails,
the result is empty (not an error). -/
theorem fetch_site_skips_failures (scrape : String → Except String (List RawRec))
    (qs : List String) :
    (∀ qA qB e rs, scrape qA = .error e → scrape qB = .ok rs → rs ≠ [] →
      fetch_site scrape [qA, qB] = rs.map fun r => { r with source_query := some qB }) ∧
    (∀ q qs2 e, scrape q = .error e →
      fetch_site scrape (q :: qs2) = fetch_site scrape qs2) ∧
    ((∀ q ∈ qs, ∃ e, scrape q = .error e) → fetch_site scrape qs = []) := by
  refine ⟨?_, ?_, ?_⟩
  · intro qA qB e rs hA hB hne
    simp [fetch_site, hA, hB, List.isEmpty_iff, hne]
  · intro q qs2 e hq
    simp [fetch_site, hq]
  · intro hall
    induction qs with
    | nil => rfl
    | cons q qs2 ih =>
      obtain ⟨e, he⟩ := hall q (List.mem_cons_self q qs2)
      simp only [fetch_site, List.flatMap_cons, he]
      have := ih fun q2 hq2 => hall q2 (List.mem_cons_of_mem _ hq2)
      simpa [fetch_site] using this

/-! # C8: the exclusion filters are idempotent -/

theorem filter_self_idem {α : Type} (p : α → Bool) (l : List α) :
    (l.filter p).filter p = l.filter p := by
  rw [List.filter_filter]
  exact List.filter_congr fun a _ => by cases p a <;> rfl

theorem filter_mid_idem {α : Type} (p q : α → Bool) (l : List α) :
    ((l.filter p).filter q).filter p = (l.filter p).filter q := by
  rw [List.filter_filter, List.filter_filter]
  conv_rhs => rw [List.filter_filter]
  exact List.filter_congr fun a _ => by cases p a <;> cases q a <;> rfl

theorem any_false_of_filter {α : Type} (p q : α → Bool) (l : List α)
    (h : l.any q = false) : (l.filter p).any q = false := by
  rw [List.any_eq_false] at h ⊢
  exact fun a ha => h a (List.mem_filter.mp ha).1

/-- A successful `filter_title` output is a fixpoint of `filter_title`. -/
theorem filter_title_fixpoint (df out : List RawRec) (queries : List String) (e : Bool)
    (h : filter_title df queries e = .ok out) : filter_title out queries e = .ok out := by
  unfold filter_title at h ⊢
  by_cases hdf : df.isEmpty
  · rw [if_pos hdf] at h
    have hout : out = df := by
      cases h
      rfl
    subst hout
    rw [if_pos hdf]
  · rw [if_neg hdf] at h
    by_cases he : e
    · rw [if_pos he] at h
      rw [if_pos he]
      by_cases hp : (build_query_phrases queries).isEmpty
      · rw [if_pos hp] at h
        have hout : out = df.filter fun r => !titleExcludeSearch ((r.title).getD "") := by
          cases h
          rfl
        subst hout
        split
        · rfl
        · rw [filter_self_idem, if_pos hp]
      · rw [if_neg hp] at h
        by_cases ha : (df.filter fun r => !titleExcludeSearch ((r.title).getD "")).any
            fun r => r.title.isNone
        · rw [if_pos ha] at h
          cases h
        · rw [if_neg ha] at h
          have hout : out = (df.filter fun r => !titleExcludeSearch ((r.title).getD "")).filter
              fun r => (build_query_phrases queries).any
                fun p => containsSub p (pyLower ((r.title).getD "").data) := by
            cases h
            rfl
          subst hout
          split
          · rfl
          · have h0 : ((df.filter fun r => !titleExcludeSearch ((r.title).getD "")).any
                fun r => r.title.isNone) = false := by
              simpa using ha
            have ha2 := any_false_of_filter
              (fun r : RawRec => (build_query_phrases queries).any
                fun p => containsSub p (pyLower ((r.title).getD "").data))
              (fun r : RawRec => r.title.isNone) _ h0
            rw [filter_mid_idem, if_neg hp,
              if_neg (by rw [ha2]; exact Bool.false_ne_true), filter_self_idem]
    · rw [if_neg he] at h
      rw [if_neg he]
      have hout : out = df.filter fun r => !titleExcludeSearch ((r.title).getD "") := by
        cases h
        rfl
      subst hout
      split
      · rfl
      · rw [filter_self_idem]

/-- C8: reapplying the title-exclusion stage (with the same query/inclusion
configuration) or the description-exclusion stage to its own output changes
nothing: `filter_title (filter_title B) = filter_title B` (in the `Except`
monad, since the inclusion pass can raise on NaN titles) and
`filter_description (filter_description B) = filter_description B`. -/
theorem exclusion_filters_idempotent :
    (∀ (df : List RawRec) (queries : List String) (e : Bool),
      (filter_title df queries e).bind (fun out => filter_title out queries e) =
        filter_title df queries e) ∧
    (∀ df : List KRec, filter_description (filter_description df) = filter_description df) := by
  constructor
  · intro df queries e
    cases h : filter_title df queries e with
    | error er => rfl
    | ok out =>
      have h2 := filter_title_fixpoint df out queries e h
      show filter_title out queries e = Except.ok out
      exact h2
  · intro df
    exact filter_self_idem _ df

/-! # C10: filter stages are subsequences of their input -/

/-- C10: the exclusion stages never invent, duplicate, modify or reorder
records: every successful `filter_title` output and every
`filter_description` output is a subsequence of its input, so the stage
counts can only shrink. -/
theorem filter_stages_subsequence :
    (∀ (df : List RawRec) (queries : List String) (e : Bool) (out : List RawRec),
      filter_title df queries e = .ok out → out.Sublist df ∧ out.length ≤ df.length) ∧
    (∀ df : List KRec,
      (filter_description df).Sublist df ∧ (filter_description df).length ≤ df.length) := by
  constructor
  · intro df queries e out h
    have hsub : out.Sublist df := by
      unfold filter_title at h
      by_cases hdf : df.isEmpty
      · rw [if_pos hdf] at h
        cases h
        exact List.Sublist.refl _
      · rw [if_neg hdf] at h
        by_cases he : e
        · rw [if_pos he] at h
          by_cases hp : (build_query_phrases queries).isEmpty
          · rw [if_pos hp] at h
            cases h
            exact List.filter_sublist df
          · rw [if_neg hp] at h
            by_cases ha : (df.filter fun r => !titleExcludeSearch ((r.title).getD "")).any
                fun r => r.title.isNone
            · rw [if_pos ha] at h
              cases h
            · rw [if_neg ha] at h
              cases h
              exact (List.filter_sublist _).trans (List.filter_sublist df)
        · rw [if_neg he] at h
          cases h
          exact List.filter_sublist df
    exact ⟨hsub, hsub.length_le⟩
  · intro df
    exact ⟨List.filter_sublist df, (List.filter_sublist df).length_le⟩

/-! # C9: seen-store round trip -/

/-- C9: for a path with a non-empty parent directory component, `save_seen`
writes the set as a sorted, duplicate-free JSON array, and `load_seen` of
that file recovers exactly the same set of keys. -/
theorem seen_store_round_trip (path : String) (S : List String)
    (h : pyDirname path ≠ "") :
    save_seen path S = .ok (.json (pySortedSet S)) ∧
    List.Sorted (· ≤ ·) (pySortedSet S) ∧
    (pySortedSet S).Nodup ∧
    ∀ k, k ∈ load_seen (.json (pySortedSet S)) ↔ k ∈ S := by
  refine ⟨?_, ?_, ?_, ?_⟩
  · unfold save_seen
    rw [if_neg h]
  · exact List.sorted_insertionSort (· ≤ ·) S.dedup
  · exact ((List.perm_insertionSort (· ≤ ·) S.dedup).nodup_iff).mpr S.nodup_dedup
  · intro k
    show k ∈ (pySortedSet S).dedup ↔ k ∈ S
    rw [List.mem_dedup]
    unfold pySortedSet
    rw [(List.perm_insertionSort (· ≤ ·) S.dedup).mem_iff, List.mem_dedup]

/-! # C3: query-resolution priority -/

theorem addQueries_isPrefix (xs : List String) : ∀ r, r <+: addQueries r xs := by
  induction xs with
  | nil => intro r; exact List.prefix_refl r
  | cons x xs ih =>
    intro r
    have step : addQueries r (x :: xs) =
        addQueries (if pyStripS x ≠ "" ∧ pyStripS x ∉ r then r ++ [pyStripS x] else r) xs := by
      simp [addQueries, List.foldl_cons]
    rw [step]
    refine List.IsPrefix.trans ?_ (ih _)
    split
    · exact ⟨[pyStripS x], rfl⟩
    · exact List.prefix_refl r

theorem addQueries_ne_nil (xs r : List String) (h : r ≠ []) : addQueries r xs ≠ [] := by
  obtain ⟨t, ht⟩ := addQueries_isPrefix xs r
  intro h0
  rw [h0] at ht
  exact h (List.append_eq_nil.mp ht).1

/-- Normal form of `load_queries` when an explicit CLI list is present:
`ENV QUERIES` drops out, the explicit list is added first, and the resolved
file (CLI path, else `ENV QUERIES_FILE`) is then merged on top. -/
theorem load_queries_cli_form (cli : List String) (cli_file : Option String)
    (envq envqf : String) (fs : String → Option String) (hc : cli ≠ []) :
    load_queries cli cli_file envq envqf fs =
      (let fp0 := cli_file.getD ""
       let file_path := if fp0 = "" then envqf else fp0
       let r2 :=
         if file_path ≠ "" then
           match fs file_path with
           | none => addQueries [] cli
           | some content =>
             if List.isSuffixOf ".json".data (pyLower file_path.data) then
               match jsonLoadList content.data with
               | some xs => addQueries (addQueries [] cli) xs
               | none => addQueries [] cli
             else addQueries (addQueries [] cli) (textFileQueryLines content)
         else addQueries [] cli
       if r2 = [] then addQueries r2 DEFAULT_QUERIES else r2) := by
  simp [load_queries, hc]

/-- C3 counterexample: with explicit query list `["a"]` AND a readable CLI
queries file containing `b`, `load_queries` returns `["a", "b"]` — the file
is merged, not ignored, so the result is not the explicit list alone. -/
theorem load_queries_file_not_ignored_counterexample :
    load_queries ["a"] (some "qs.txt") "" ""
        (fun p => if p = "qs.txt" then some "b\n" else none) = ["a", "b"] ∧
    (["a", "b"] : List String) ≠ ["a"] := by
  constructor
  · decide
  · decide

/-- C3 (amended): with an explicit query list whose trimmed de-duplicated
form is non-empty, `load_queries` starts from exactly that list; the bulk
`ENV QUERIES` setting is ignored; but the resolved queries file (the CLI
path, or `ENV QUERIES_FILE` when no CLI path is given) is read and its
entries are merged after the explicit ones (not ignored) — line entries for
a text file, the `str()`-coerced array items for a `.json` file; only when
no file resolves is the result the explicit list alone. -/
theorem load_queries_explicit_tier (cli : List String) (cli_file : Option String)
    (envq envqf : String) (fs : String → Option String)
    (hcli : addQueries [] cli ≠ []) :
    load_queries cli cli_file envq envqf fs = load_queries cli cli_file "" envqf fs ∧
    (addQueries [] cli) <+: load_queries cli cli_file envq envqf fs ∧
    (∀ path content, cli_file = some path → path ≠ "" → fs path = some content →
      ¬ List.isSuffixOf ".json".data (pyLower path.data) →
      load_queries cli cli_file envq envqf fs =
        addQueries (addQueries [] cli) (textFileQueryLines content)) ∧
    (∀ path content xs, cli_file = some path → path ≠ "" → fs path = some content →
      List.isSuffixOf ".json".data (pyLower path.data) →
      jsonLoadList content.data = some xs →
      load_queries cli cli_file envq envqf fs = addQueries (addQueries [] cli) xs) ∧
    ((cli_file = none ∨ cli_file = some "") → envqf = "" →
      load_queries cli cli_file envq envqf fs = addQueries [] cli) := by
  have hc : cli ≠ [] := fun h => hcli (by rw [h]; rfl)
  refine ⟨?_, ?_, ?_, ?_, ?_⟩
  · rw [load_queries_cli_form cli cli_file envq envqf fs hc,
      load_queries_cli_form cli cli_file "" envqf fs hc]
  · rw [load_queries_cli_form cli cli_file envq envqf fs hc]
    have hr2 : ∀ r2 : List String, addQueries [] cli <+: r2 → r2 ≠ [] →
        addQueries [] cli <+: (if r2 = [] then addQueries r2 DEFAULT_QUERIES else r2) := by
      intro r2 hp h2
      rw [if_neg h2]
      exact hp
    apply hr2
    · repeat' split
      all_goals first
        | exact List.prefix_refl _
        | exact addQueries_isPrefix _ _
    · repeat' split
      all_goals first
        | exact hcli
        | exact addQueries_ne_nil _ _ hcli
  · intro path content hfile hpath hfs hjson
    rw [load_queries_cli_form cli cli_file envq envqf fs hc, hfile]
    have h1 : (some path).getD "" = path := rfl
    dsimp only at hjson ⊢
    rw [h1, if_neg hpath, if_pos hpath, hfs]
    dsimp only
    rw [if_neg hjson, if_neg (addQueries_ne_nil _ _ hcli)]
  · intro path content xs hfile hpath hfs hjson hparse
    rw [load_queries_cli_form cli cli_file envq envqf fs hc, hfile]
    have h1 : (some path).getD "" = path := rfl
    dsimp only at hjson ⊢
    rw [h1, if_neg hpath, if_pos hpath, hfs]
    dsimp only
    rw [if_pos hjson, hparse]
    dsimp only
    rw [if_neg (addQueries_ne_nil _ _ hcli)]
  · intro hfile henvqf
    rw [load_queries_cli_form cli cli_file envq envqf fs hc]
    have h0 : cli_file.getD "" = "" := by
      rcases hfile with rfl | rfl
      · rfl
      · rfl
    dsimp only
    rw [h0, if_pos rfl, henvqf,
      if_neg (show ¬("" ≠ "") from fun h => h rfl), if_neg hcli]

/-! # fetch_all characterisation lemmas -/

theorem fetchAllRun_empty_fetch (cfg : RunConfig) (scrape : String → Except String (List RawRec))
    (sink : List KRec → Except String String) (seen0 : List String)
    (h : fetch_site scrape cfg.queries = []) :
    fetchAllRun cfg scrape sink seen0 =
      ⟨seen0, .ok (empty_response cfg.queries cfg.return_queries), []⟩ := by
  unfold fetchAllRun
  rw [h]
  rfl

/-- Case analysis for a run whose `result` is a returned response: either it
is the meta-less empty response, or the full-branch response built from the
new-record list, whose keys were all persisted. -/
theorem fetchAllRun_ok_cases (cfg : RunConfig) (scrape : String → Except String (List RawRec))
    (sink : List KRec → Except String String) (seen0 : List String) (resp : Response)
    (h : (fetchAllRun cfg scrape sink seen0).result = .ok resp) :
    resp = empty_response cfg.queries cfg.return_queries ∨
    ∃ dft,
      filter_title (fetch_site scrape cfg.queries) cfg.queries cfg.enforce_include = .ok dft ∧
      ((pipePrepared cfg.apply_desc_filter dft).filter
        fun kr => !decide (kr.job_url_norm ∈ seen0)) ≠ [] ∧
      resp.items = ((pipePrepared cfg.apply_desc_filter dft).filter
        fun kr => !decide (kr.job_url_norm ∈ seen0)).map mkItem ∧
      resp.new_count = ((pipePrepared cfg.apply_desc_filter dft).filter
        fun kr => !decide (kr.job_url_norm ∈ seen0)).length ∧
      (fetchAllRun cfg scrape sink seen0).seenAfter =
        pySetUpdate seen0 ((((pipePrepared cfg.apply_desc_filter dft).filter
          fun kr => !decide (kr.job_url_norm ∈ seen0)).map
            fun kr => kr.job_url_norm).filter fun k => k ≠ "") := by
  unfold fetchAllRun at h ⊢
  by_cases h1 : (fetch_site scrape cfg.queries).isEmpty
  · rw [if_pos h1] at h
    dsimp only at h
    left
    exact (Except.ok.inj h).symm
  · rw [if_neg h1] at h ⊢
    cases hft : filter_title (fetch_site scrape cfg.queries) cfg.queries cfg.enforce_include with
    | error e =>
      rw [hft] at h
      dsimp only at h
      cases h
    | ok dft =>
      rw [hft] at h
      dsimp only at h ⊢
      by_cases h2 : ((pipePrepared cfg.apply_desc_filter dft).filter
          fun kr => !decide (kr.job_url_norm ∈ seen0)).isEmpty
      · rw [if_pos h2] at h
        dsimp only at h
        left
        exact (Except.ok.inj h).symm
      · rw [if_neg h2] at h ⊢
        right
        refine ⟨dft, rfl, fun hnil => h2 (by rw [hnil]; rfl), ?_⟩
        cases hsk : (if cfg.update_sheet then
            Except.map some (sink ((pipePrepared cfg.apply_desc_filter dft).filter
              fun kr => !decide (kr.job_url_norm ∈ seen0))) else Except.ok none) with
        | error e =>
          rw [hsk] at h
          dsimp only at h
          cases h
        | ok sres =>
          rw [hsk] at h
          dsimp only at h ⊢
          have hresp := (Except.ok.inj h).symm
          subst hresp
          exact ⟨rfl, rfl, rfl⟩

/-- The persisted seen set does not depend on the sink at all. -/
theorem fetchAllRun_seenAfter_sink_independent (cfg : RunConfig)
    (scrape : String → Except String (List RawRec))
    (sink1 sink2 : List KRec → Except String String) (seen0 : List String) :
    (fetchAllRun cfg scrape sink1 seen0).seenAfter =
      (fetchAllRun cfg scrape sink2 seen0).seenAfter := by
  unfold fetchAllRun
  dsimp only
  by_cases h1 : (fetch_site scrape cfg.queries).isEmpty
  · rw [if_pos h1, if_pos h1]
  · rw [if_neg h1, if_neg h1]
    cases hft : filter_title (fetch_site scrape cfg.queries) cfg.queries cfg.enforce_include with
    | error e => rfl
    | ok dft =>
      dsimp only
      by_cases h2 : ((pipePrepared cfg.apply_desc_filter dft).filter
          fun kr => !decide (kr.job_url_norm ∈ seen0)).isEmpty
      · rw [if_pos h2, if_pos h2]
      · rw [if_neg h2, if_neg h2]
        cases hs1 : (if cfg.update_sheet then
            Except.map some (sink1 ((pipePrepared cfg.apply_desc_filter dft).filter
              fun kr => !decide (kr.job_url_norm ∈ seen0))) else Except.ok none) with
        | error e =>
          cases hs2 : (if cfg.update_sheet then
              Except.map some (sink2 ((pipePrepared cfg.apply_desc_filter dft).filter
                fun kr => !decide (kr.job_url_norm ∈ seen0))) else Except.ok none) with
          | error e2 => rfl
          | ok s2 => rfl
        | ok s1 =>
          cases hs2 : (if cfg.update_sheet then
              Except.map some (sink2 ((pipePrepared cfg.apply_desc_filter dft).filter
                fun kr => !decide (kr.job_url_norm ∈ seen0))) else Except.ok none) with
          | error e2 => rfl
          | ok s2 => rfl

/-- The effect trace is one of `[]`, `[saveSeen]`, `[saveSeen, sinkAppend]`:
whenever the sink is attempted, the seen store was saved first. -/
theorem fetchAllRun_events_shape (cfg : RunConfig)
    (scrape : String → Except String (List RawRec))
    (sink : List KRec → Except String String) (seen0 : List String) :
    (fetchAllRun cfg scrape sink seen0).events = [] ∨
    (fetchAllRun cfg scrape sink seen0).events = [Ev.saveSeen] ∨
    (fetchAllRun cfg scrape sink seen0).events = [Ev.saveSeen, Ev.sinkAppend] := by
  unfold fetchAllRun
  dsimp only
  by_cases h1 : (fetch_site scrape cfg.queries).isEmpty
  · rw [if_pos h1]
    exact Or.inl rfl
  · rw [if_neg h1]
    cases hft : filter_title (fetch_site scrape cfg.queries) cfg.queries cfg.enforce_include with
    | error e => exact Or.inl rfl
    | ok dft =>
      dsimp only
      by_cases h2 : ((pipePrepared cfg.apply_desc_filter dft).filter
          fun kr => !decide (kr.job_url_norm ∈ seen0)).isEmpty
      · rw [if_pos h2]
        exact Or.inl rfl
      · rw [if_neg h2]
        cases hs : (if cfg.update_sheet then
            Except.map some (sink ((pipePrepared cfg.apply_desc_filter dft).filter
              fun kr => !decide (kr.job_url_norm ∈ seen0))) else Except.ok none) with
        | error e => exact Or.inr (Or.inr rfl)
        | ok sres =>
          dsimp only
          by_cases hu : cfg.update_sheet
          · rw [if_pos hu]
            exact Or.inr (Or.inr rfl)
          · rw [if_neg hu]
            exact Or.inr (Or.inl rfl)

/-- In any returned response, `new_count` counts the items and no item's
normalized key was in the seen set loaded at run start. -/
theorem fetchAllRun_items_unseen (cfg : RunConfig)
    (scrape : String → Except String (List RawRec))
    (sink : List KRec → Except String String) (seen0 : List String) (resp : Response)
    (h : (fetchAllRun cfg scrape sink seen0).result = .ok resp) :
    resp.new_count = resp.items.length ∧
    ∀ it ∈ resp.items, normalize_url it.job_url ∉ seen0 := by
  rcases fetchAllRun_ok_cases _ _ _ _ _ h with rfl | ⟨dft, _, _, hitems, hcount, _⟩
  · exact ⟨rfl, fun it hit => absurd hit (List.not_mem_nil it)⟩
  · constructor
    · rw [hcount, hitems, List.length_map]
    · intro it hit
      rw [hitems] at hit
      obtain ⟨kr, hkr, rfl⟩ := List.mem_map.mp hit
      have h2 := List.mem_filter.mp hkr
      have hkey := pipePrepared_key _ _ _ h2.1
      intro hmem
      have hin : kr.job_url_norm ∈ seen0 := by
        rw [hkey]
        exact hmem
      have h3 := h2.2
      rw [decide_eq_true hin] at h3
      simp at h3

/-- Every returned item with a non-empty normalized key has that key in the
persisted seen set at run end. -/
theorem fetchAllRun_items_in_seenAfter (cfg : RunConfig)
    (scrape : String → Except String (List RawRec))
    (sink : List KRec → Except String String) (seen0 : List String) (resp : Response)
    (h : (fetchAllRun cfg scrape sink seen0).result = .ok resp) :
    ∀ it ∈ resp.items, normalize_url it.job_url ≠ "" →
      normalize_url it.job_url ∈ (fetchAllRun cfg scrape sink seen0).seenAfter := by
  rcases fetchAllRun_ok_cases _ _ _ _ _ h with rfl | ⟨dft, _, _, hitems, _, hseen⟩
  · intro it hit
    exact absurd hit (List.not_mem_nil it)
  · intro it hit hne
    rw [hitems] at hit
    obtain ⟨kr, hkr, rfl⟩ := List.mem_map.mp hit
    have hkey := pipePrepared_key _ _ _ (List.mem_filter.mp hkr).1
    rw [hseen, mem_pySetUpdate]
    right
    rw [List.mem_filter]
    exact ⟨List.mem_map.mpr ⟨kr, hkr, hkey⟩, decide_eq_true hne⟩

/-! # C1: seen keys never reappear as new -/

/-- C1: for the seen set `seen0` loaded at the start of a run, no returned
item has a normalized key in `seen0` and `new_count` counts exactly the
returned items; every returned non-empty key is persisted; hence a second run
started from the persisted set can never return an item with a key that the
first run returned. -/
theorem seen_keys_never_reappear (cfg : RunConfig)
    (scrape : String → Except String (List RawRec))
    (sink : List KRec → Except String String) (seen0 : List String) :
    (∀ resp, (fetchAllRun cfg scrape sink seen0).result = .ok resp →
      resp.new_count = resp.items.length ∧
      ∀ it ∈ resp.items, normalize_url it.job_url ∉ seen0) ∧
    (∀ resp, (fetchAllRun cfg scrape sink seen0).result = .ok resp →
      ∀ it ∈ resp.items, normalize_url it.job_url ≠ "" →
        normalize_url it.job_url ∈ (fetchAllRun cfg scrape sink seen0).seenAfter) ∧
    (∀ (cfg2 : RunConfig) (scrape2 : String → Except String (List RawRec))
        (sink2 : List KRec → Except String String) (resp resp2 : Response),
      (fetchAllRun cfg scrape sink seen0).result = .ok resp →
      (fetchAllRun cfg2 scrape2 sink2
        (fetchAllRun cfg scrape sink seen0).seenAfter).result = .ok resp2 →
      ∀ it ∈ resp.items, normalize_url it.job_url ≠ "" →
        ∀ it2 ∈ resp2.items, normalize_url it2.job_url ≠ normalize_url it.job_url) := by
  refine ⟨fun resp h => fetchAllRun_items_unseen cfg scrape sink seen0 resp h,
    fun resp h => fetchAllRun_items_in_seenAfter cfg scrape sink seen0 resp h, ?_⟩
  intro cfg2 scrape2 sink2 resp resp2 h1 h2 it hit hne it2 hit2 heq
  have hin := fetchAllRun_items_in_seenAfter cfg scrape sink seen0 resp h1 it hit hne
  have hout := (fetchAllRun_items_unseen cfg2 scrape2 sink2 _ resp2 h2).2 it2 hit2
  rw [heq] at hout
  exact hout hin

/-! # C4: empty runs -/

/-- C4 counterexample: a run where the very first stage yields zero records
returns the plain empty response, whose `meta` key is ABSENT (`none`) — the
per-stage diagnostic counts are not present with value zero. -/
theorem empty_run_meta_absent_counterexample :
    (fetchAllRun ⟨false, false, false, true, ["q"]⟩ (fun _ => .ok []) (fun _ => .ok "skip")
        []).result =
      .ok { new_count := 0, sheet_result := none, items := [], meta := none, queries := none } ∧
    Response.meta
      { new_count := 0, sheet_result := none, items := [], meta := none, queries := none } =
      none := by
  exact ⟨rfl, rfl⟩

/-- C4 (amended): a run in which a stage yields zero records returns the
empty result (zero count, no items, no sheet result) but WITHOUT per-stage
diagnostics: the `meta` key is present exactly on runs with at least one new
record, so an empty run carries no counts. -/
theorem empty_runs_have_no_diagnostics (cfg : RunConfig)
    (scrape : String → Except String (List RawRec))
    (sink : List KRec → Except String String) (seen0 : List String) :
    (fetch_site scrape cfg.queries = [] →
      fetchAllRun cfg scrape sink seen0 =
        ⟨seen0, .ok (empty_response cfg.queries cfg.return_queries), []⟩) ∧
    (∀ resp, (fetchAllRun cfg scrape sink seen0).result = .ok resp →
      (resp.new_count = 0 ↔ resp = empty_response cfg.queries cfg.return_queries)) ∧
    (empty_response cfg.queries cfg.return_queries).meta = none ∧
    (empty_response cfg.queries cfg.return_queries).items = [] ∧
    (empty_response cfg.queries cfg.return_queries).sheet_result = none := by
  refine ⟨fetchAllRun_empty_fetch cfg scrape sink seen0, ?_, rfl, rfl, rfl⟩
  intro resp h
  rcases fetchAllRun_ok_cases _ _ _ _ _ h with rfl | ⟨dft, _, hne, _, hcount, _⟩
  · exact ⟨fun _ => rfl, fun _ => rfl⟩
  · constructor
    · intro h0
      exact (hne (List.length_eq_zero.mp (hcount.symm.trans h0))).elim
    · intro hr
      rw [hr]
      rfl

/-! # C6: seen persisted before the sink append -/

/-- C6: the persisted seen set is identical whatever the sink does; whenever
a sink append is attempted it is strictly after the seen-store save in the
effect trace; and every new key returned by a run with a working sink is in
the persisted set of the same run with a failing sink — a sink outage cannot
cause re-delivery. -/
theorem seen_persisted_before_sink (cfg : RunConfig)
    (scrape : String → Except String (List RawRec)) (seen0 : List String) :
    (∀ sink1 sink2 : List KRec → Except String String,
      (fetchAllRun cfg scrape sink1 seen0).seenAfter =
        (fetchAllRun cfg scrape sink2 seen0).seenAfter) ∧
    (∀ sink : List KRec → Except String String,
      Ev.sinkAppend ∈ (fetchAllRun cfg scrape sink seen0).events →
      (fetchAllRun cfg scrape sink seen0).events = [Ev.saveSeen, Ev.sinkAppend]) ∧
    (∀ (sinkOk sinkBad : List KRec → Except String String) (resp : Response),
      (fetchAllRun cfg scrape sinkOk seen0).result = .ok resp →
      ∀ it ∈ resp.items, normalize_url it.job_url ≠ "" →
        normalize_url it.job_url ∈ (fetchAllRun cfg scrape sinkBad seen0).seenAfter) := by
  refine ⟨fun s1 s2 => fetchAllRun_seenAfter_sink_independent cfg scrape s1 s2 seen0, ?_, ?_⟩
  · intro sink hmem
    rcases fetchAllRun_events_shape cfg scrape sink seen0 with he | he | he
    · rw [he] at hmem
      exact absurd hmem (List.not_mem_nil _)
    · rw [he] at hmem
      exact absurd (List.mem_singleton.mp hmem) (by decide)
    · exact he
  · intro sinkOk sinkBad resp h it hit hne
    rw [fetchAllRun_seenAfter_sink_independent cfg scrape sinkBad sinkOk seen0]
    exact fetchAllRun_items_in_seenAfter cfg scrape sinkOk seen0 resp h it hit hne

/-! # C7: the description filter -/

/-- The "5 years of experience required" record of the spec's scenario. -/
def descRec : RawRec :=
  { id := some "7", site := some "linkedin", job_url := some "http://jobs.example.com/se/1",
    title := some "Software Engineer", company := some "X", location := some "Sydney",
    job_type := some "", job_level := some "", description := some "5 years of experience required",
    employment_type := none, seniority_level := none, source_query := none }

def cfgDescOn : RunConfig :=
  { update_sheet := false, return_queries := false, enforce_include := false,
    apply_desc_filter := true, queries := ["se"] }

def cfgDescOff : RunConfig :=
  { update_sheet := false, return_queries := false, enforce_include := false,
    apply_desc_filter := false, queries := ["se"] }

def scrapeDesc : String → Except String (List RawRec) := fun _ => .ok [descRec]

def sinkNoop : List KRec → Except String String := fun _ => .ok "skip"

/-- C7: `filter_description` keeps a record iff its description matches
neither the experience-years pattern (range 5-39, case-insensitive,
word-boundary) nor the residency/citizenship/clearance/sponsorship pattern;
the range boundaries behave as specified (5 and 39 match, 4 and 40 do not);
and the scenario record with description "5 years of experience required" is
excluded by `fetch_all` when the description filter is on and kept (and
counted) when it is off. -/
theorem filter_description_characterisation :
    (∀ (df : List KRec) (kr : KRec), kr ∈ filter_description df ↔
      kr ∈ df ∧ ¬(expYearsSearch kr.r.description = true ∨
        rightsSearch kr.r.description = true)) ∧
    expYearsSearch "5 years of experience required" = true ∧
    expYearsSearch "4 years of experience" = false ∧
    expYearsSearch "39 yrs exp" = true ∧
    expYearsSearch "40 years of experience" = false ∧
    expYearsSearch "5 YEARS OF EXPERIENCE" = true ∧
    rightsSearch "No sponsorship available" = true ∧
    rightsSearch "Sydney based role" = false ∧
    (fetchAllRun cfgDescOn scrapeDesc sinkNoop []).result = .ok (empty_response ["se"] false) ∧
    (fetchAllRun cfgDescOff scrapeDesc sinkNoop []).result = .ok
      { new_count := 1, sheet_result := none,
        items := [⟨"http://jobs.example.com/se/1", "Software Engineer", "X", "Sydney", "", "",
          "5 years of experience required"⟩],
        meta := some ⟨1, 1, 1, 1, 1, false, false⟩, queries := none } := by
  refine ⟨?_, by decide, by decide, by decide, by decide, by decide, by decide, by decide,
    by decide, by decide⟩
  intro df kr
  rw [filter_description, List.mem_filter]
  simp [not_or]

/-! # Witness data and witnesses -/

def recW : RawRec :=
  { id := some "w1", site := some "linkedin", job_url := some "http://w.example.com/a?utm_x=1",
    title := some "Junior Developer", company := some "C", location := some "L",
    job_type := some "", job_level := some "", description := some "clean",
    employment_type := none, seniority_level := none, source_query := none }

def cfgW : RunConfig :=
  { update_sheet := false, return_queries := false, enforce_include := false,
    apply_desc_filter := true, queries := ["w"] }

def scrapeW : String → Except String (List RawRec) := fun _ => .ok [recW]

def itW : Item := ⟨"http://w.example.com/a?utm_x=1", "Junior Developer", "C", "L", "", "", "clean"⟩

def respW : Response := ⟨1, none, [itW], some ⟨1, 1, 1, 1, 1, false, true⟩, none⟩

theorem seen_keys_never_reappear_witness :
    normalize_url "http://w.example.com/a?utm_x=1" ∉ ([] : List String) ∧
    normalize_url "http://w.example.com/a?utm_x=1" ∈
      (fetchAllRun cfgW scrapeW sinkNoop []).seenAfter := by
  constructor
  · exact (seen_keys_never_reappear cfgW scrapeW sinkNoop []).1 respW (by decide) |>.2
      itW (by decide)
  · exact (seen_keys_never_reappear cfgW scrapeW sinkNoop []).2.1 respW (by decide)
      itW (by decide) (by decide)

theorem load_queries_explicit_tier_witness :
    load_queries ["x"] none "ENVQ" "" (fun _ => none) = addQueries [] ["x"] ∧
    load_queries ["x"] (some "qs.json") "" ""
        (fun p => if p = "qs.json" then some "[\"b\", 2]" else none) =
      addQueries (addQueries [] ["x"]) ["b", "2"] ∧
    addQueries (addQueries [] (["x"] : List String)) ["b", "2"] = ["x", "b", "2"] :=
  ⟨(load_queries_explicit_tier ["x"] none "ENVQ" "" (fun _ => none) (by decide)).2.2.2.2
      (Or.inl rfl) rfl,
    (load_queries_explicit_tier ["x"] (some "qs.json") "" ""
        (fun p => if p = "qs.json" then some "[\"b\", 2]" else none) (by decide)).2.2.2.1
      "qs.json" "[\"b\", 2]" ["b", "2"] rfl (by decide) (by decide) (by decide) (by decide),
    by decide⟩

theorem empty_runs_have_no_diagnostics_witness :
    fetchAllRun ⟨false, false, false, true, ["q"]⟩ (fun _ => .ok []) sinkNoop [] =
      ⟨[], .ok (empty_response ["q"] false), []⟩ :=
  (empty_runs_have_no_diagnostics ⟨false, false, false, true, ["q"]⟩ (fun _ => .ok [])
    sinkNoop []).1 (by decide)

def recB1 : RawRec :=
  { id := some "b1", site := some "linkedin", job_url := some "http://b.example.com/1",
    title := some "Role One", company := some "B", location := some "L",
    job_type := some "", job_level := some "", description := some "d1",
    employment_type := none, seniority_level := none, source_query := none }

def recB2 : RawRec := { recB1 with id := some "b2", job_url := some "http://b.example.com/2" }

def scrapeC5 : String → Except String (List RawRec) := fun t =>
  if t = "A" then .error "boom" else .ok [recB1, recB2]

theorem fetch_site_skips_failures_witness :
    fetch_site scrapeC5 ["A", "B"] =
      [recB1, recB2].map fun r => { r with source_query := some "B" } :=
  (fetch_site_skips_failures scrapeC5 ["A", "B"]).1 "A" "B" "boom" [recB1, recB2]
    (by decide) (by decide) (by decide)

def recW6 : RawRec := { recW with job_url := some "http://w6.example.com/a" }

def cfgW6 : RunConfig :=
  { update_sheet := true, return_queries := false, enforce_include := false,
    apply_desc_filter := true, queries := ["w"] }

def scrapeW6 : String → Except String (List RawRec) := fun _ => .ok [recW6]

def sinkBadW : List KRec → Except String String := fun _ => .error "sheet down"

def itW6 : Item := ⟨"http://w6.example.com/a", "Junior Developer", "C", "L", "", "", "clean"⟩

def respW6 : Response := ⟨1, some "skip", [itW6], some ⟨1, 1, 1, 1, 1, false, true⟩, none⟩

theorem seen_persisted_before_sink_witness :
    normalize_url "http://w6.example.com/a" ∈
      (fetchAllRun cfgW6 scrapeW6 sinkBadW []).seenAfter :=
  (seen_persisted_before_sink cfgW6 scrapeW6 []).2.2 sinkNoop sinkBadW respW6
    (by decide) itW6 (by decide) (by decide)

theorem seen_store_round_trip_witness :
    save_seen "history/seen.json" ["b", "a", "b"] = .ok (.json (pySortedSet ["b", "a", "b"])) ∧
    ("a" ∈ load_seen (.json (pySortedSet ["b", "a", "b"])) ↔ "a" ∈ ["b", "a", "b"]) := by
  have h := seen_store_round_trip "history/seen.json" ["b", "a", "b"] (by decide)
  exact ⟨h.1, h.2.2.2 "a"⟩

def recSrW : RawRec := { recW with id := some "sr", title := some "Senior Dev" }

theorem filter_stages_subsequence_witness :
    ([recW] : List RawRec).Sublist [recSrW, recW] ∧
    ([recW] : List RawRec).length ≤ ([recSrW, recW] : List RawRec).length :=
  filter_stages_subsequence.1 [recSrW, recW] [] false [recW] (by decide)

/-! # C2: URL normalization invariance -/

theorem stripSlashL_concat (z : List Char) : stripSlashL (z ++ ['/']) = z := by
  unfold stripSlashL
  rw [List.getLast?_concat, if_pos rfl, List.dropLast_concat]

theorem stripSlashL_no_slash (z : List Char) (hz : z.getLast? ≠ some '/') :
    stripSlashL z = z := by
  unfold stripSlashL
  rw [if_neg hz]

theorem strip_pair (z : List Char) (hz : z.getLast? ≠ some '/') :
    stripSlashL (z ++ ['/']) = stripSlashL z := by
  rw [stripSlashL_concat, stripSlashL_no_slash z hz]

theorem getLast?_append_right (l1 l2 : List Char) (h : l2 ≠ []) :
    (l1 ++ l2).getLast? = l2.getLast? := by
  rw [List.getLast?_append]
  have h2 := List.getLast?_isSome.mpr h
  cases hl : l2.getLast? with
  | none => rw [hl] at h2; cases h2
  | some a => rfl

theorem getLast?_mem (l : List Char) (a : Char) (h : l.getLast? = some a) : a ∈ l := by
  have hne : l ≠ [] := by
    intro e
    subst e
    simp at h
  rw [List.getLast?_eq_getLast l hne] at h
  exact (Option.some.inj h) ▸ List.getLast_mem hne

theorem dropLast_concat_slash (a : List Char) (ha : a.getLast? = some '/') :
    a.dropLast ++ ['/'] = a := by
  have hane : a ≠ [] := by
    intro e
    subst e
    simp at ha
  have h2 := List.dropLast_append_getLast hane
  have h3 : a.getLast hane = '/' := by
    have h4 := List.getLast?_eq_getLast a hane
    rw [ha] at h4
    exact (Option.some.inj h4).symm
  rw [h3] at h2
  exact h2

theorem stripSlashL_eq_cases (a b : List Char) (h : stripSlashL a = stripSlashL b) :
    a = b ∨ (a = b ++ ['/'] ∧ b.getLast? ≠ some '/') ∨
      (b = a ++ ['/'] ∧ a.getLast? ≠ some '/') := by
  unfold stripSlashL at h
  by_cases ha : a.getLast? = some '/'
  · by_cases hb : b.getLast? = some '/'
    · rw [if_pos ha, if_pos hb] at h
      left
      rw [← dropLast_concat_slash a ha, ← dropLast_concat_slash b hb, h]
    · rw [if_pos ha, if_neg hb] at h
      right
      left
      refine ⟨?_, hb⟩
      rw [← h]
      exact (dropLast_concat_slash a ha).symm
  · by_cases hb : b.getLast? = some '/'
    · rw [if_neg ha, if_pos hb] at h
      right
      right
      refine ⟨?_, ha⟩
      rw [h]
      exact (dropLast_concat_slash b hb).symm
    · rw [if_neg ha, if_neg hb] at h
      exact Or.inl h

theorem lowerChar_eq_slash (c : Char) (h : lowerChar c = '/') : c = '/' := by
  unfold lowerChar at h
  split at h
  all_goals first
    | exact h
    | exact absurd h (by decide)

theorem pyLower_no_slash (n : List Char) (h : '/' ∉ n) : '/' ∉ pyLower n := by
  intro hmem
  obtain ⟨c, hc, he⟩ := List.mem_map.mp hmem
  exact h (lowerChar_eq_slash c he ▸ hc)

theorem urlparse_netloc_no_slash (l : List Char) : '/' ∉ (pyUrlparse l).netloc := by
  intro hmem
  unfold pyUrlparse at hmem
  dsimp only at hmem
  split at hmem
  · have h2 := List.mem_takeWhile_imp hmem
    simp [nonNetDelim] at h2
  · exact absurd hmem (List.not_mem_nil _)

theorem slashAdj_concat (c : Char) (x' : List Char) :
    slashAdj ((c :: x') ++ ['/']) = slashAdj (c :: x') ++ ['/'] := by
  unfold slashAdj
  have ht1 : ((c :: x') ++ ['/']).take 1 = [c] := rfl
  have ht2 : (c :: x').take 1 = [c] := rfl
  by_cases hc : ([c] : List Char) = ['/']
  · rw [if_neg (fun h => h.2 (ht1.trans hc)), if_neg (fun h => h.2 (ht2.trans hc))]
  · rw [if_pos ⟨by simp, fun he => hc (ht1 ▸ he)⟩, if_pos ⟨by simp, fun he => hc (ht2 ▸ he)⟩]
    rfl

theorem netCond_concat (s n : List Char) (c : Char) (x' : List Char)
    (hx : (c :: x').getLast? ≠ some '/') :
    netCond s n ((c :: x') ++ ['/']) ↔ netCond s n (c :: x') := by
  cases x' with
  | nil =>
    have hc : c ≠ '/' := fun e => hx (by rw [e]; rfl)
    have t1 : ((c :: ([] : List Char)) ++ ['/']).take 2 ≠ ['/', '/'] := by
      intro h
      injection h with h1 _
      exact hc h1
    have t2 : ((c :: ([] : List Char))).take 2 ≠ ['/', '/'] := by
      intro h
      simp at h
    unfold netCond
    constructor
    · rintro (h | ⟨h1, h2, _⟩)
      · exact Or.inl h
      · exact Or.inr ⟨h1, h2, t2⟩
    · rintro (h | ⟨h1, h2, _⟩)
      · exact Or.inl h
      · exact Or.inr ⟨h1, h2, t1⟩
  | cons c2 x'' =>
    have t : ((c :: c2 :: x'') ++ ['/']).take 2 = (c :: c2 :: x'').take 2 := rfl
    unfold netCond
    rw [t]

theorem scheme_wrap_concat (s v : List Char) :
    (if s ≠ [] then s ++ ':' :: (v ++ ['/']) else v ++ ['/']) =
      (if s ≠ [] then s ++ ':' :: v else v) ++ ['/'] := by
  split
  · rw [List.append_assoc]
    rfl
  · rfl

theorem scheme_wrap_getLast (s v : List Char) (hv : v ≠ []) :
    (if s ≠ [] then s ++ ':' :: v else v).getLast? = v.getLast? := by
  split
  · rw [show s ++ ':' :: v = (s ++ [':']) ++ v from (List.append_assoc s [':'] v).symm]
    exact getLast?_append_right _ v hv
  · rfl

/-- Core invariance: re-assembling with a path that differs only by one
trailing slash gives the same normalized string, provided the netloc carries
no slash, the shorter path does not end in a slash, and (when the shorter
path is empty and the netloc empty) the scheme does not trigger the
`uses_netloc` re-wrap. -/
theorem unsplit_slash_invariant (s n x : List Char) (hn : '/' ∉ n)
    (hx : x.getLast? ≠ some '/')
    (hside : x ≠ [] ∨ n ≠ [] ∨ s = [] ∨ s ∉ usesNetloc) :
    stripSlashL (pyUrlunsplit s n (x ++ ['/']) [] []) =
      stripSlashL (pyUrlunsplit s n x [] []) := by
  have hq : ¬(([] : List Char) ≠ []) := fun h => h rfl
  unfold pyUrlunsplit
  dsimp only
  rw [if_neg hq, if_neg hq, if_neg hq, if_neg hq]
  cases x with
  | nil =>
    by_cases hn0 : n = []
    · subst hn0
      have hsu : ¬(s ≠ [] ∧ s ∈ usesNetloc) := by
        rcases hside with h | h | h | h
        · exact absurd rfl h
        · exact absurd rfl h
        · exact fun hc => hc.1 h
        · exact fun hc => h hc.2
      have hc1 : ¬ netCond s [] (([] : List Char) ++ ['/']) := by
        rintro (h | ⟨h1, h2, _⟩)
        · exact h rfl
        · exact hsu ⟨h1, h2⟩
      have hc2 : ¬ netCond s [] ([] : List Char) := by
        rintro (h | ⟨h1, h2, _⟩)
        · exact h rfl
        · exact hsu ⟨h1, h2⟩
      rw [if_neg hc1, if_neg hc2, scheme_wrap_concat s []]
      apply strip_pair
      split
      · rw [show s ++ ':' :: ([] : List Char) = s ++ [':'] from rfl, List.getLast?_concat]
        intro hcl
        exact absurd (Option.some.inj hcl) (by decide)
      · simp
    · have hlastn : n.getLast? ≠ some '/' := fun hl => hn (getLast?_mem n '/' hl)
      have hc1 : netCond s n (([] : List Char) ++ ['/']) := Or.inl hn0
      have hc2 : netCond s n ([] : List Char) := Or.inl hn0
      rw [if_pos hc1, if_pos hc2]
      have ha1 : slashAdj (([] : List Char) ++ ['/']) = ['/'] := by
        unfold slashAdj
        rw [if_neg (fun h => h.2 rfl)]
        rfl
      have ha2 : slashAdj ([] : List Char) = [] := by
        unfold slashAdj
        rw [if_neg (fun h => h.1 rfl)]
      rw [ha1, ha2, List.append_nil, scheme_wrap_concat s ('/' :: '/' :: n)]
      apply strip_pair
      rw [scheme_wrap_getLast s _ (by simp),
        show ('/' :: '/' :: n : List Char) = ['/', '/'] ++ n from rfl,
        getLast?_append_right _ n hn0]
      exact hlastn
  | cons c x' =>
    have hcnd := netCond_concat s n c x' hx
    have hadj := slashAdj_concat c x'
    have hW : (if netCond s n ((c :: x') ++ ['/']) then
          ('/' :: '/' :: n) ++ slashAdj ((c :: x') ++ ['/'])
        else ((c :: x') ++ ['/'])) =
        (if netCond s n (c :: x') then ('/' :: '/' :: n) ++ slashAdj (c :: x')
          else (c :: x')) ++ ['/'] := by
      by_cases hc : netCond s n (c :: x')
      · rw [if_pos (hcnd.mpr hc), if_pos hc, hadj, List.append_assoc]
      · rw [if_neg (fun h => hc (hcnd.mp h)), if_neg hc]
    rw [hW, scheme_wrap_concat]
    apply strip_pair
    have hWne : (if netCond s n (c :: x') then ('/' :: '/' :: n) ++ slashAdj (c :: x')
        else (c :: x')) ≠ [] := by
      split
      · simp
      · simp
    rw [scheme_wrap_getLast s _ hWne]
    have hadjne : slashAdj (c :: x') ≠ [] := by
      unfold slashAdj
      split <;> simp
    have hWlast : (if netCond s n (c :: x') then ('/' :: '/' :: n) ++ slashAdj (c :: x')
        else (c :: x')).getLast? = (c :: x').getLast? := by
      split
      · rw [getLast?_append_right _ _ hadjne]
        unfold slashAdj
        split
        · rw [show ('/' :: (c :: x') : List Char) = ['/'] ++ (c :: x') from rfl,
            getLast?_append_right _ _ (by simp)]
        · rfl
      · rfl
    rw [hWlast]
    exact hx

/-- `normalize_url` is the post-parse core applied to the parse result. -/
theorem normalize_url_eq_normCore (u : String) :
    normalize_url u = ⟨normCore (pyUrlparse u.data)⟩ := by
  unfold normalize_url normCore
  by_cases h : u = ""
  · rw [if_pos h, h]
    rfl
  · rw [if_neg h]

/-- C2 counterexample: two URLs that differ only in the presence of one
trailing `/` need NOT normalize identically once a query string is present:
the trailing slash becomes part of the last query value and is
percent-encoded on re-assembly. -/
theorem normalize_url_trailing_slash_counterexample :
    normalize_url ("http://a.com/x?a=1" ++ "/") ≠ normalize_url "http://a.com/x?a=1" := by
  decide

/-- C2 (amended): `normalize_url` identifies two URLs that differ only in
tracking query parameters (`utm_*`, `fbclid`, `gclid`), in the letter case of
the host, and/or in one trailing slash of the path — the trailing-slash
difference being tolerated only when no query parameter survives the
tracking filter and no `;params` component is present (and, for an empty
path with empty host, when the scheme does not trigger the `uses_netloc`
re-wrap).  The hypotheses state the "differ only in" relation on the
parsed components. -/
theorem normalize_url_tracking_invariance (u1 u2 : String)
    (hs : (pyUrlparse u1.data).scheme = (pyUrlparse u2.data).scheme)
    (hn : pyLower (pyUrlparse u1.data).netloc = pyLower (pyUrlparse u2.data).netloc)
    (hprm : (pyUrlparse u1.data).params = (pyUrlparse u2.data).params)
    (hq : (pyParseQsl (pyUrlparse u1.data).query).filter keepParam =
          (pyParseQsl (pyUrlparse u2.data).query).filter keepParam)
    (hpath : (pyUrlparse u1.data).path = (pyUrlparse u2.data).path ∨
      (stripSlashL (pyUrlparse u1.data).path = stripSlashL (pyUrlparse u2.data).path ∧
       (pyParseQsl (pyUrlparse u1.data).query).filter keepParam = [] ∧
       (pyUrlparse u1.data).params = [] ∧
       (stripSlashL (pyUrlparse u1.data).path ≠ [] ∨
        pyLower (pyUrlparse u1.data).netloc ≠ [] ∨
        (pyUrlparse u1.data).scheme = [] ∨ (pyUrlparse u1.data).scheme ∉ usesNetloc))) :
    normalize_url u1 = normalize_url u2 := by
  rw [normalize_url_eq_normCore u1, normalize_url_eq_normCore u2]
  refine congrArg String.mk ?_
  unfold normCore
  dsimp only
  unfold pyUrlunparse
  dsimp only
  rw [← hs, ← hn, ← hprm, ← hq]
  rcases hpath with heq | ⟨hstrip, hq0, hprm0, hside⟩
  · rw [← heq]
  · rw [hq0, show pyUrlencode [] = [] from rfl, hprm0,
      if_neg (fun h => h rfl), if_neg (fun h => h rfl)]
    have hnets : '/' ∉ pyLower (pyUrlparse u1.data).netloc :=
      pyLower_no_slash _ (urlparse_netloc_no_slash u1.data)
    rcases stripSlashL_eq_cases _ _ hstrip with heq | ⟨he, hlast⟩ | ⟨he, hlast⟩
    · rw [heq]
    · rw [he]
      apply unsplit_slash_invariant _ _ _ hnets hlast
      have hsp : stripSlashL (pyUrlparse u1.data).path = (pyUrlparse u2.data).path := by
        rw [he, stripSlashL_concat]
      rcases hside with h | h | h | h
      · exact Or.inl (hsp ▸ h)
      · exact Or.inr (Or.inl h)
      · exact Or.inr (Or.inr (Or.inl h))
      · exact Or.inr (Or.inr (Or.inr h))
    · rw [he]
      refine (unsplit_slash_invariant _ _ _ hnets hlast ?_).symm
      have hsp : stripSlashL (pyUrlparse u1.data).path = (pyUrlparse u1.data).path :=
        stripSlashL_no_slash _ hlast
      rcases hside with h | h | h | h
      · exact Or.inl (hsp ▸ h)
      · exact Or.inr (Or.inl h)
      · exact Or.inr (Or.inr (Or.inl h))
      · exact Or.inr (Or.inr (Or.inr h))

theorem normalize_url_tracking_invariance_witness :
    pyLower (pyUrlparse "HTTPS://Example.COM/jobs/view/123/?utm_source=email&fbclid=xyz".data).netloc =
      pyLower (pyUrlparse "https://example.com/jobs/view/123".data).netloc ∧
    normalize_url "HTTPS://Example.COM/jobs/view/123/?utm_source=email&fbclid=xyz" =
      normalize_url "https://example.com/jobs/view/123" := by
  refine ⟨by decide, ?_⟩
  exact normalize_url_tracking_invariance
    "HTTPS://Example.COM/jobs/view/123/?utm_source=email&fbclid=xyz"
    "https://example.com/jobs/view/123"
    (by decide) (by decide) (by decide) (by decide)
    (Or.inr ⟨by decide, by decide, by decide, Or.inl (by decide)⟩)

def krD : KRec := ⟨⟨"i", "linkedin", "http://d.example.com/1", "T", "C", "L", "", "", "nice role"⟩,
  "http://d.example.com/1"⟩

theorem filter_description_characterisation_witness :
    krD ∈ filter_description [krD] ↔ krD ∈ [krD] ∧
      ¬(expYearsSearch krD.r.description = true ∨ rightsSearch krD.r.description = true) :=
  filter_description_characterisation.1 [krD] krD

theorem exclusion_filters_idempotent_witness :
    (filter_title [recW] ["w"] false).bind (fun out => filter_title out ["w"] false) =
      filter_title [recW] ["w"] false :=
  exclusion_filters_idempotent.1 [recW] ["w"] false
